import Mathlib

/-!
# Verification of the snapshot diff / cost / trend engine

A shallow embedding of `src/processor/data_processor.py` from the
`aws-resource-cost-report` repository, together with proofs (and
refutations) of the spec's testable properties about it.

Modelling conventions:
* Python/JSON values are modelled by `Value`.  Python floats are modelled
  as exact rationals (`Rat`); every finite float is an exact rational and
  none of the verified code performs float arithmetic, only equality.
* Python `==` on such values is modelled by `pyEq`, defined by comparing
  numeric-normal canonical forms (`canon`): Python's numeric tower makes
  `0 == 0.0 == False` true, containers compare recursively, and dict
  comparison is order-insensitive mapping equality (JSON object keys are
  strings and are unique in any `json.load`-produced value, which is the
  only way the verified code obtains these dictionaries).
* Python dictionaries keyed by strings are modelled as association lists
  (`List (String × Value)`) with first-match lookup; dictionaries keyed by
  arbitrary values (the diff engine's `resource_id -> record` maps and the
  tag maps) are association lists whose insertion matches keys with `pyEq`,
  mirroring Python's `==`/hash based key identity.
-/

namespace AwsCostReport

/-- A Python value as produced by `json.load`: `None`, booleans, ints,
floats (modelled as exact rationals), strings, lists and string-keyed
dictionaries. -/
inductive Value where
  | null : Value
  | bool : Bool → Value
  | int : Int → Value
  | float : Rat → Value
  | str : String → Value
  | list : List Value → Value
  | dict : List (String × Value) → Value
  deriving Repr

/-- Insert a dictionary entry into a key-sorted entry list (insertion-sort
step; fully structural so that canonical forms compute by `decide`). -/
def insertPairByKey (x : String × Value) : List (String × Value) → List (String × Value)
  | [] => [x]
  | y :: l => if x.1 ≤ y.1 then x :: y :: l else y :: insertPairByKey x l

/-- Sort the entries of a (string-keyed) dictionary by key.  Used to put
dictionaries into a canonical order, so that comparing canonical forms is
Python's order-insensitive dict equality. -/
def sortPairs : List (String × Value) → List (String × Value)
  | [] => []
  | x :: l => insertPairByKey x (sortPairs l)

mutual
/-- Numeric-normal canonical form of a `Value`: Python's numeric tower
(`bool`/`int`/`float`) is collapsed into `float` (exact rationals), lists
are canonicalised elementwise, and dictionary entries are canonicalised
and sorted by key.  Two values are `==` in Python iff their canonical
forms coincide. -/
def canon : Value → Value
  | .null => .null
  | .bool b => .float (if b then 1 else 0)
  | .int n => .float (n : Rat)
  | .float q => .float q
  | .str s => .str s
  | .list xs => .list (canonList xs)
  | .dict xs => .dict (sortPairs (canonPairs xs))

/-- Canonicalise every element of a list of values. -/
def canonList : List Value → List Value
  | [] => []
  | x :: xs => canon x :: canonList xs

/-- Canonicalise every value of a list of dictionary entries. -/
def canonPairs : List (String × Value) → List (String × Value)
  | [] => []
  | (k, v) :: xs => (k, canon v) :: canonPairs xs
end

/-- A token of the flat serialisation of a `Value`.  `Value` is a nested
inductive, for which `deriving DecidableEq` is unavailable here, so value
equality is decided on an injective serialisation instead. -/
inductive Tok where
  | tnull : Tok
  | tbool : Bool → Tok
  | tint : Int → Tok
  | tfloat : Rat → Tok
  | tstr : String → Tok
  | tlist : Tok
  | tdict : Tok
  | tkey : String → Tok
  | tend : Tok
  deriving DecidableEq, Repr

mutual
/-- Injective flat serialisation of a `Value` (containers are delimited by
opening tokens and `tend`), so that equality of serialisations is equality
of values. -/
def ser : Value → List Tok
  | .null => [.tnull]
  | .bool b => [.tbool b]
  | .int n => [.tint n]
  | .float q => [.tfloat q]
  | .str s => [.tstr s]
  | .list xs => Tok.tlist :: serList xs ++ [Tok.tend]
  | .dict xs => Tok.tdict :: serPairs xs ++ [Tok.tend]

/-- Serialise the elements of a list of values, concatenated. -/
def serList : List Value → List Tok
  | [] => []
  | x :: xs => ser x ++ serList xs

/-- Serialise dictionary entries (each key tagged with `tkey`). -/
def serPairs : List (String × Value) → List Tok
  | [] => []
  | (k, v) :: xs => Tok.tkey k :: ser v ++ serPairs xs
end

/-- Python `==` on values (`start_res[key] != end_res[key]` in
`_is_resource_modified` / `_get_resource_changes` is its negation):
two values are `==` iff their numeric-normal canonical forms coincide,
decided via the injective serialisation. -/
def pyEq (a b : Value) : Bool :=
  ser (canon a) == ser (canon b)

@[simp] theorem pyEq_refl (a : Value) : pyEq a a = true := by
  simp [pyEq]

theorem pyEq_symm (a b : Value) : pyEq a b = pyEq b a := by
  simp only [pyEq]
  exact BEq.comm ..

theorem pyEq_trans {a b c : Value} (h₁ : pyEq a b = true)
    (h₂ : pyEq b c = true) : pyEq a c = true := by
  simp only [pyEq, beq_iff_eq] at *
  exact h₁.trans h₂

/-! ## Records and Python dictionaries -/

/-- A resource record: a JSON object, i.e. a string-keyed Python dict
(association list with first-match lookup; keys are unique in any
`json.load`-produced object). -/
abbrev Record := List (String × Value)

/-- Lookup in a string-keyed dict: `d.get(k)` returning `None` as `none`. -/
def lookupVal (k : String) : List (String × Value) → Option Value
  | [] => none
  | (k', v) :: r => if k' = k then some v else lookupVal k r

/-- `d.get(k)` on a value that should be a dict, with Python's `None` for a
missing key (`tag.get('Key')` / `tag.get('Value')`).  A non-dict argument
would raise `AttributeError` in Python; it cannot arise from the verified
code's JSON inputs and is mapped to `None` here. -/
def pyGet (t : Value) (k : String) : Value :=
  match t with
  | .dict d => (lookupVal k d).getD .null
  | _ => .null

/-- Python truthiness of a value (`if res.get('ResourceId'):`). -/
def truthy : Value → Bool
  | .null => false
  | .bool b => b
  | .int n => n != 0
  | .float q => q != 0
  | .str s => s != ""
  | .list xs => !xs.isEmpty
  | .dict xs => !xs.isEmpty

/-- Python truthiness of a `d.get(k)` result (missing key means `None`,
which is falsy). -/
def truthyOpt : Option Value → Bool
  | some v => truthy v
  | none => false

/-- First entry of a value-keyed Python dict whose key is `==` to `k`
(Python dict lookup identifies keys up to `==`). -/
def findPy {β : Type} (k : Value) : List (Value × β) → Option β
  | [] => none
  | (k', v) :: m => if pyEq k' k then some v else findPy k m

/-- Insertion into a value-keyed Python dict: if a key `==` to `k` is
already present its value is replaced in place (the stored key object is
kept, as in Python); otherwise the new binding is appended, matching
Python's insertion-order semantics. -/
def insertPy {β : Type} (k : Value) (v : β) : List (Value × β) → List (Value × β)
  | [] => [(k, v)]
  | (k', v') :: m => if pyEq k' k then (k', v) :: m else (k', v') :: insertPy k v m

/-- The keys of a value-keyed dict are pairwise `!=`: true of every Python
dict, and preserved by `insertPy`. -/
def PyNodupKeys {β : Type} (m : List (Value × β)) : Prop :=
  (m.map Prod.fst).Pairwise (fun a b => pyEq a b = false)

/-- The tag list of a record: `res.get('Tags', [])`.  A present non-list
`Tags` value would make Python's subsequent `for tag in …` raise or
iterate nonsensically; it cannot arise from the collectors' JSON output
and is mapped to `[]` here. -/
def getTags (r : Record) : List Value :=
  match lookupVal "Tags" r with
  | some (.list ts) => ts
  | _ => []

/-- `{tag.get('Key'): tag.get('Value') for tag in tags}` — build the
key→value tag map in list order; a later duplicate key overwrites the
earlier value (Python dict comprehension semantics). -/
def buildTagMapAux (m : List (Value × Value)) : List Value → List (Value × Value)
  | [] => m
  | t :: ts => buildTagMapAux (insertPy (pyGet t "Key") (pyGet t "Value") m) ts

/-- The key→value map of a tag list (see `buildTagMapAux`). -/
def buildTagMap (ts : List Value) : List (Value × Value) :=
  buildTagMapAux [] ts

/-- One inclusion of Python's dict `==` on tag maps: every binding of `m₁`
is matched by an `==`-equal binding in `m₂`. -/
def tagMapSub (m₁ m₂ : List (Value × Value)) : Bool :=
  m₁.all fun p =>
    match findPy p.1 m₂ with
    | some w => pyEq p.2 w
    | none => false

/-- Python's `start_tags != end_tags` is the negation of this mapping
equality. -/
def tagMapEqb (m₁ m₂ : List (Value × Value)) : Bool :=
  tagMapSub m₁ m₂ && tagMapSub m₂ m₁

/-! ## The diff engine (`_detect_changes` and helpers) -/

/-- `set(start_res.keys()) | set(end_res.keys())`, in a canonical order
(Python set iteration order is irrelevant to every property below: the
key set only feeds `any`-style tests and key-indexed mappings). -/
def keysUnion (a b : List (String × Value)) : List String :=
  (a.map Prod.fst ++ b.map Prod.fst).dedup

/-- The body of `_is_resource_modified`'s field loop for one key: a key
missing on either side, or a value differing under Python `!=`, marks the
record modified. -/
def fieldDiffers (a b : Record) (k : String) : Bool :=
  match lookupVal k a, lookupVal k b with
  | some va, some vb => !pyEq va vb
  | _, _ => true

/-- `_is_resource_modified(start_res, end_res)`: any non-`Tags` field
differs, or the tag maps differ. -/
def isResourceModified (a b : Record) : Bool :=
  ((keysUnion a b).any fun k => k != "Tags" && fieldDiffers a b k)
  || !tagMapEqb (buildTagMap (getTags a)) (buildTagMap (getTags b))

/-- One entry of `_get_resource_changes`' field-change mapping:
`{"added": v}`, `{"removed": v}` or `{"from": v, "to": w}`. -/
inductive FieldChange where
  | added : Value → FieldChange
  | removed : Value → FieldChange
  | changed : Value → Value → FieldChange
  deriving Repr

/-- The field-change entry `_get_resource_changes` produces for key `k`
(`none` when the key is `Tags`, equal on both sides, or absent on both). -/
def fieldChangeAt (a b : Record) (k : String) : Option FieldChange :=
  if k = "Tags" then none
  else
    match lookupVal k a, lookupVal k b with
    | none, none => none
    | none, some vb => some (.added vb)
    | some va, none => some (.removed va)
    | some va, some vb => if pyEq va vb then none else some (.changed va vb)

/-- `_get_resource_changes`' tag-change component: the three key→value /
key→(from, to) maps (the Python code stores them in a `Tags` sub-dict and
omits empty ones; here an omitted map is the empty list). -/
structure TagChanges where
  added : List (Value × Value)
  removed : List (Value × Value)
  modified : List (Value × (Value × Value))
  deriving Repr

/-- The tag diff of `_get_resource_changes`: `added` = bindings of the
after-map whose key is not in the before-map, `removed` symmetrically, and
`modified` = common keys whose values differ under Python `!=`. -/
def tagDiff (startTags endTags : List (Value × Value)) : TagChanges where
  added := endTags.filter fun p => (findPy p.1 startTags).isNone
  removed := startTags.filter fun p => (findPy p.1 endTags).isNone
  modified := startTags.filterMap fun p =>
    match findPy p.1 endTags with
    | some w => if pyEq p.2 w then none else some (p.1, (p.2, w))
    | none => none

/-- The full result of `_get_resource_changes`: the per-field change
mapping (the `Tags` key is skipped there) plus the tag diff. -/
structure ResourceChanges where
  fields : List (String × FieldChange)
  tags : TagChanges
  deriving Repr

/-- `_get_resource_changes(start_res, end_res)`. -/
def getResourceChanges (a b : Record) : ResourceChanges where
  fields := (keysUnion a b).filterMap fun k => (fieldChangeAt a b k).map ((k, ·))
  tags := tagDiff (buildTagMap (getTags a)) (buildTagMap (getTags b))

/-- `res.get('ResourceId')`. -/
def resourceId (r : Record) : Option Value :=
  lookupVal "ResourceId" r

/-- `{res.get('ResourceId'): res for res in resource_list if
res.get('ResourceId')}` — the identity map of a resource list: records
with a falsy (missing, empty, …) `ResourceId` are excluded, and a later
record with an `==`-equal id overwrites an earlier one. -/
def buildIdMapAux (m : List (Value × Record)) : List Record → List (Value × Record)
  | [] => m
  | r :: rest =>
      buildIdMapAux
        (if truthyOpt (resourceId r) then insertPy ((resourceId r).getD .null) r m else m)
        rest

/-- The identity map of a resource list (see `buildIdMapAux`). -/
def buildIdMap (l : List Record) : List (Value × Record) :=
  buildIdMapAux [] l

/-- One element of a `modified` list in a change set:
`{"resource_id": …, "before": …, "after": …, "changes": …}`. -/
structure ModEntry where
  resource_id : Value
  before : Record
  after : Record
  changes : ResourceChanges
  deriving Repr

/-- A snapshot's `resources` mapping: resource type → record list (the
`all_resources.json` payload under its `"resources"` key). -/
abbrev Snapshot := List (String × List Record)

/-- `start_resources.get(resource_type, [])`. -/
def typeList (s : Snapshot) (t : String) : List Record :=
  (s.lookup t).getD []

/-- `set(start_resources.keys()) | set(end_resources.keys())` in canonical
order. -/
def allResourceTypes (s e : Snapshot) : List String :=
  (s.map Prod.fst ++ e.map Prod.fst).dedup

/-- The `added` list `_detect_changes` produces for one resource type:
the after-side identity-map records whose id is absent from the before
side. -/
def addedForType (s e : Snapshot) (t : String) : List Record :=
  ((buildIdMap (typeList e t)).filter fun p =>
    (findPy p.1 (buildIdMap (typeList s t))).isNone).map Prod.snd

/-- The `removed` list for one resource type (before-side ids absent from
the after side). -/
def removedForType (s e : Snapshot) (t : String) : List Record :=
  ((buildIdMap (typeList s t)).filter fun p =>
    (findPy p.1 (buildIdMap (typeList e t))).isNone).map Prod.snd

/-- The `modified` list for one resource type: ids common to both sides
whose records `_is_resource_modified` flags, with the detailed changes. -/
def modifiedForType (s e : Snapshot) (t : String) : List ModEntry :=
  (buildIdMap (typeList s t)).filterMap fun p =>
    match findPy p.1 (buildIdMap (typeList e t)) with
    | some r' =>
        if isResourceModified p.2 r' then
          some ⟨p.1, p.2, r', getResourceChanges p.2 r'⟩
        else none
    | none => none

/-- The ChangeSet produced by `_detect_changes`: per-kind mappings from
resource type to the respective lists; a type appears only when its list
is non-empty (`if added_ids: changes["added"][resource_type] = …`). -/
structure ChangeSet where
  added : List (String × List Record)
  removed : List (String × List Record)
  modified : List (String × List ModEntry)
  deriving Repr

/-- `_detect_changes(start_data, end_data)` (both arguments are the
snapshots' `resources` mappings; the Python wrapper reads them with
`data.get("resources", {})`). -/
def detectChanges (s e : Snapshot) : ChangeSet where
  added := (allResourceTypes s e).filterMap fun t =>
    let l := addedForType s e t
    if l.isEmpty then none else some (t, l)
  removed := (allResourceTypes s e).filterMap fun t =>
    let l := removedForType s e t
    if l.isEmpty then none else some (t, l)
  modified := (allResourceTypes s e).filterMap fun t =>
    let l := modifiedForType s e t
    if l.isEmpty then none else some (t, l)

/-! ## Dictionary lemmas -/

theorem lookupVal_isSome_of_mem_keys {r : List (String × Value)} {k : String}
    (h : k ∈ r.map Prod.fst) : (lookupVal k r).isSome := by
  induction r with
  | nil => simp at h
  | cons p r ih =>
      simp only [List.map_cons, List.mem_cons] at h
      by_cases hk : p.1 = k
      · simp [lookupVal, hk]
      · rcases h with h | h
        · exact absurd h.symm hk
        · simpa [lookupVal, hk] using ih h

theorem mem_keys_of_lookupVal_eq_some {r : List (String × Value)} {k : String}
    {v : Value} (h : lookupVal k r = some v) : k ∈ r.map Prod.fst := by
  induction r with
  | nil => simp [lookupVal] at h
  | cons p r ih =>
      by_cases hk : p.1 = k
      · simp [hk]
      · simp only [lookupVal, hk, if_false] at h
        simp [ih h]

theorem findPy_isSome_of_mem {β : Type} {m : List (Value × β)} {k : Value} {v : β}
    (h : (k, v) ∈ m) : (findPy k m).isSome := by
  induction m with
  | nil => simp at h
  | cons p m ih =>
      by_cases hp : pyEq p.1 k = true
      · simp [findPy, hp]
      · rcases List.mem_cons.mp h with h | h
        · rw [← h] at hp; simp [pyEq_refl] at hp
        · simpa [findPy, hp] using ih h

theorem forall_not_pyEq_of_findPy_eq_none {β : Type} {m : List (Value × β)} {k : Value}
    (h : findPy k m = none) : ∀ p ∈ m, pyEq p.1 k = false := by
  induction m with
  | nil => simp
  | cons q m ih =>
      by_cases hq : pyEq q.1 k = true
      · simp [findPy, hq] at h
      · simp only [findPy, hq, if_false] at h
        intro p hp
        rcases List.mem_cons.mp hp with hp | hp
        · simp [hp, Bool.eq_false_iff, hq]
        · exact ih h p hp

theorem findPy_eq_some_of_mem_nodup {β : Type} {m : List (Value × β)} {k : Value} {v : β}
    (hnd : PyNodupKeys m) (h : (k, v) ∈ m) : findPy k m = some v := by
  induction m with
  | nil => simp at h
  | cons p m ih =>
      simp only [PyNodupKeys, List.map_cons, List.pairwise_cons] at hnd
      rcases List.mem_cons.mp h with h | h
      · rw [← h]; simp [findPy, pyEq_refl]
      · by_cases hp : pyEq p.1 k = true
        · have : pyEq p.1 k = false :=
            hnd.1 k (List.mem_map.mpr ⟨(k, v), h, rfl⟩)
          simp [this] at hp
        · simpa [findPy, hp] using ih hnd.2 h

theorem insertPy_keys_of_findPy_isSome {β : Type} {m : List (Value × β)} {k : Value}
    (v : β) (h : (findPy k m).isSome) :
    (insertPy k v m).map Prod.fst = m.map Prod.fst := by
  induction m with
  | nil => simp [findPy] at h
  | cons p m ih =>
      by_cases hp : pyEq p.1 k = true
      · simp [insertPy, hp]
      · simp only [findPy, hp, if_false] at h
        simp [insertPy, hp, ih h]

theorem insertPy_keys_of_findPy_eq_none {β : Type} {m : List (Value × β)} {k : Value}
    (v : β) (h : findPy k m = none) :
    (insertPy k v m).map Prod.fst = m.map Prod.fst ++ [k] := by
  induction m with
  | nil => simp [insertPy]
  | cons p m ih =>
      by_cases hp : pyEq p.1 k = true
      · simp [findPy, hp] at h
      · simp only [findPy, hp, if_false] at h
        simp [insertPy, hp, ih h]

theorem insertPy_nodup {β : Type} {m : List (Value × β)} {k : Value} {v : β}
    (hnd : PyNodupKeys m) : PyNodupKeys (insertPy k v m) := by
  unfold PyNodupKeys at *
  rcases h : findPy k m with _ | w
  · rw [insertPy_keys_of_findPy_eq_none v h]
    rw [List.pairwise_append]
    refine ⟨hnd, List.pairwise_singleton .., ?_⟩
    intro a ha b hb
    rcases List.mem_map.mp ha with ⟨p, hp, rfl⟩
    rcases List.mem_singleton.mp hb
    exact forall_not_pyEq_of_findPy_eq_none h p hp
  · rw [insertPy_keys_of_findPy_isSome v (by simp [h])]
    exact hnd

theorem buildIdMapAux_nodup {m : List (Value × Record)} {l : List Record}
    (hnd : PyNodupKeys m) : PyNodupKeys (buildIdMapAux m l) := by
  induction l generalizing m with
  | nil => exact hnd
  | cons r l ih =>
      unfold buildIdMapAux
      by_cases hr : truthyOpt (resourceId r) = true
      · simp only [hr, if_true]
        exact ih (insertPy_nodup hnd)
      · simp only [hr]
        simpa using ih hnd

theorem buildIdMap_nodup (l : List Record) : PyNodupKeys (buildIdMap l) :=
  buildIdMapAux_nodup (by simp [PyNodupKeys])

theorem buildTagMapAux_nodup {m : List (Value × Value)} {ts : List Value}
    (hnd : PyNodupKeys m) : PyNodupKeys (buildTagMapAux m ts) := by
  induction ts generalizing m with
  | nil => exact hnd
  | cons t ts ih => exact ih (insertPy_nodup hnd)

theorem buildTagMap_nodup (ts : List Value) : PyNodupKeys (buildTagMap ts) :=
  buildTagMapAux_nodup (by simp [PyNodupKeys])

/-! ## Claim C1: `compare(S, S)` is empty -/

theorem tagMapSub_self {m : List (Value × Value)} (hnd : PyNodupKeys m) :
    tagMapSub m m = true := by
  rw [tagMapSub, List.all_eq_true]
  intro p hp
  rw [findPy_eq_some_of_mem_nodup hnd (by simpa using hp)]
  simp [pyEq_refl]

theorem isResourceModified_self (r : Record) : isResourceModified r r = false := by
  unfold isResourceModified
  have h₁ : ((keysUnion r r).any fun k => k != "Tags" && fieldDiffers r r k) = false := by
    rw [List.any_eq_false]
    intro k hk
    have hmem : k ∈ r.map Prod.fst := by
      simpa [keysUnion, List.mem_dedup, or_self] using hk
    rcases Option.isSome_iff_exists.mp (lookupVal_isSome_of_mem_keys hmem) with ⟨v, hv⟩
    simp [fieldDiffers, hv, pyEq_refl]
  have h₂ : tagMapEqb (buildTagMap (getTags r)) (buildTagMap (getTags r)) = true := by
    rw [tagMapEqb, tagMapSub_self (buildTagMap_nodup _)]
    simp
  rw [h₁, h₂]
  simp

/-- C1.  Diffing any snapshot against itself produces the empty ChangeSet:
`_detect_changes(S, S)` has empty `added`, `removed` and `modified`
mappings. -/
theorem detectChanges_self_empty (s : Snapshot) :
    detectChanges s s = ⟨[], [], []⟩ := by
  have hfind : ∀ t (p : Value × Record), p ∈ buildIdMap (typeList s t) →
      (findPy p.1 (buildIdMap (typeList s t))).isSome := by
    intro t p hp
    exact findPy_isSome_of_mem (by simpa using hp)
  unfold detectChanges
  simp only [ChangeSet.mk.injEq]
  refine ⟨?_, ?_, ?_⟩
  · rw [List.filterMap_eq_nil_iff]
    intro t _
    have : addedForType s s t = [] := by
      unfold addedForType
      rw [List.map_eq_nil_iff, List.filter_eq_nil_iff]
      intro p hp
      simp [Option.isNone_iff_eq_none, Option.isSome_iff_ne_none.mp (hfind t p hp)]
    simp [this]
  · rw [List.filterMap_eq_nil_iff]
    intro t _
    have : removedForType s s t = [] := by
      unfold removedForType
      rw [List.map_eq_nil_iff, List.filter_eq_nil_iff]
      intro p hp
      simp [Option.isNone_iff_eq_none, Option.isSome_iff_ne_none.mp (hfind t p hp)]
    simp [this]
  · rw [List.filterMap_eq_nil_iff]
    intro t _
    have : modifiedForType s s t = [] := by
      unfold modifiedForType
      rw [List.filterMap_eq_nil_iff]
      intro p hp
      rw [findPy_eq_some_of_mem_nodup (buildIdMap_nodup _) (by simpa using hp)]
      simp [isResourceModified_self]
    simp [this]

/-! ## Claim C2: bootstrap — `compare(empty, S)` marks everything added -/

theorem findPy_eq_none_of_forall {β : Type} {m : List (Value × β)} {k : Value}
    (h : ∀ p ∈ m, pyEq p.1 k = false) : findPy k m = none := by
  induction m with
  | nil => rfl
  | cons p m ih =>
      have hp := h p (by simp)
      simp only [findPy, hp, Bool.false_eq_true, if_false]
      exact ih fun q hq => h q (by simp [hq])

theorem insertPy_eq_append_of_findPy_eq_none {β : Type} {m : List (Value × β)}
    {k : Value} (v : β) (h : findPy k m = none) :
    insertPy k v m = m ++ [(k, v)] := by
  induction m with
  | nil => rfl
  | cons p m ih =>
      by_cases hp : pyEq p.1 k = true
      · simp [findPy, hp] at h
      · simp only [findPy, hp, Bool.false_eq_true, if_false] at h ⊢
        simp only [insertPy, hp, Bool.false_eq_true, if_false, List.cons_append,
          List.cons.injEq, true_and]
        exact ih h

/-- The truthy resource ids of a record list, in order — the keys the
identity map `buildIdMap` is built from. -/
def truthyIds (l : List Record) : List Value :=
  l.filterMap fun r =>
    if truthyOpt (resourceId r) then some ((resourceId r).getD .null) else none

theorem buildIdMapAux_eq {m : List (Value × Record)} {l : List Record}
    (hdisj : ∀ p ∈ m, ∀ id ∈ truthyIds l, pyEq p.1 id = false)
    (hnd : (truthyIds l).Pairwise (fun a b => pyEq a b = false)) :
    buildIdMapAux m l =
      m ++ (l.filter fun r => truthyOpt (resourceId r)).map
        (fun r => ((resourceId r).getD .null, r)) := by
  induction l generalizing m with
  | nil => simp [buildIdMapAux]
  | cons r l ih =>
      by_cases hr : truthyOpt (resourceId r) = true
      · have hids : truthyIds (r :: l) =
            ((resourceId r).getD .null) :: truthyIds l := by
          simp [truthyIds, hr]
        rw [hids] at hdisj hnd
        have hnone : findPy ((resourceId r).getD .null) m = none :=
          findPy_eq_none_of_forall fun p hp => hdisj p hp _ (by simp)
        have hstep : buildIdMapAux m (r :: l) =
            buildIdMapAux (m ++ [((resourceId r).getD .null, r)]) l := by
          simp [buildIdMapAux, hr, insertPy_eq_append_of_findPy_eq_none _ hnone]
        rw [hstep, ih ?_ (List.Pairwise.sublist (by simp) hnd)]
        · simp [hr]
        · intro p hp id hid
          rcases List.mem_append.mp hp with hp | hp
          · exact hdisj p hp id (by simp [hid])
          · rcases List.mem_singleton.mp hp
            exact (List.pairwise_cons.mp hnd).1 id hid
      · have hids : truthyIds (r :: l) = truthyIds l := by
          simp [truthyIds, hr]
        rw [hids] at hdisj hnd
        have hstep : buildIdMapAux m (r :: l) = buildIdMapAux m l := by
          simp [buildIdMapAux, hr]
        rw [hstep, ih hdisj hnd]
        simp [hr]

theorem buildIdMap_eq {l : List Record}
    (hnd : (truthyIds l).Pairwise (fun a b => pyEq a b = false)) :
    buildIdMap l = (l.filter fun r => truthyOpt (resourceId r)).map
      (fun r => ((resourceId r).getD .null, r)) := by
  simpa using buildIdMapAux_eq (m := []) (by simp) hnd

/-- Lookup in a change-set mapping (a missing resource type means the
empty list). -/
def changeLookup {α : Type} (m : List (String × List α)) (t : String) : List α :=
  (m.lookup t).getD []

theorem lookup_eq_none_of_not_mem_keys {β : Type} {m : List (String × β)} {t : String}
    (h : t ∉ m.map Prod.fst) : m.lookup t = none := by
  induction m with
  | nil => rfl
  | cons p m ih =>
      simp only [List.map_cons, List.mem_cons, not_or] at h
      have : (t == p.1) = false := beq_eq_false_iff_ne.mpr h.1
      simpa [List.lookup, this] using ih h.2

theorem lookup_filterMap_guard {β : Type} {ts : List String} (hnd : ts.Nodup)
    (g : String → List β) {t : String} (ht : t ∈ ts) :
    (ts.filterMap fun u =>
        (let l := g u; if l.isEmpty then none else some (u, l))).lookup t =
      if (g t).isEmpty then none else some (g t) := by
  induction ts with
  | nil => simp at ht
  | cons u ts ih =>
      rcases List.nodup_cons.mp hnd with ⟨hu, hnd'⟩
      by_cases he : u = t
      · subst he
        by_cases hg : (g u).isEmpty
        · have : (ts.filterMap fun w =>
              (let l := g w; if l.isEmpty then none else some (w, l))).lookup u = none := by
            apply lookup_eq_none_of_not_mem_keys
            intro hmem
            rcases List.mem_map.mp hmem with ⟨p, hp, rfl⟩
            rcases List.mem_filterMap.mp hp with ⟨w, hw, hfw⟩
            simp only at hfw
            split at hfw
            · exact absurd hfw (by simp)
            · rcases Option.some.injEq .. ▸ hfw with rfl
              exact hu hw
          simp [hg, this]
        · simp [hg, List.lookup]
      · have ht' : t ∈ ts := by
          rcases List.mem_cons.mp ht with h | h
          · exact absurd h.symm he
          · exact h
        have hne : (t == u) = false := beq_eq_false_iff_ne.mpr (Ne.symm he)
        by_cases hg : (g u).isEmpty
        · simpa [hg] using ih hnd' ht'
        · simpa [hg, List.lookup, hne] using ih hnd' ht'

/-- C2.  Bootstrap: diffing the empty snapshot against `S` yields no
`removed` and no `modified` entries, and for every resource type the
`added` list is exactly the records of `S` that carry a truthy
`ResourceId` (records without one are silently invisible to the diff) —
provided each type bucket's truthy ids are pairwise distinct, the
snapshot invariant. -/
theorem detectChanges_bootstrap (S : Snapshot)
    (hwf : ∀ t ∈ S.map Prod.fst,
      (truthyIds (typeList S t)).Pairwise (fun a b => pyEq a b = false)) :
    (detectChanges [] S).removed = [] ∧ (detectChanges [] S).modified = [] ∧
    ∀ t, changeLookup (detectChanges [] S).added t =
      (typeList S t).filter (fun r => truthyOpt (resourceId r)) := by
  have htypeEmpty : ∀ t, typeList ([] : Snapshot) t = [] := fun _ => rfl
  refine ⟨?_, ?_, ?_⟩
  · rw [detectChanges, List.filterMap_eq_nil_iff]
    intro t _
    have : removedForType [] S t = [] := by
      rw [removedForType, htypeEmpty]
      rfl
    simp [this]
  · rw [detectChanges, List.filterMap_eq_nil_iff]
    intro t _
    have : modifiedForType [] S t = [] := by
      rw [modifiedForType, htypeEmpty]
      rfl
    simp [this]
  · intro t
    have hadded : ∀ u, addedForType [] S u =
        (typeList S u).filter (fun r => truthyOpt (resourceId r)) ∨
        u ∉ S.map Prod.fst := by
      intro u
      by_cases hu : u ∈ S.map Prod.fst
      · left
        rw [addedForType, htypeEmpty, buildIdMap_eq (hwf u hu)]
        have : ∀ p : Value × Record,
            (findPy p.1 (buildIdMap ([] : List Record))).isNone = true := by
          intro p; rfl
        rw [List.filter_eq_self.mpr fun p _ => this p]
        simp [Function.comp_def]
      · right; exact hu
    by_cases hmem : t ∈ S.map Prod.fst
    · have htypes : t ∈ allResourceTypes [] S := by
        simp [allResourceTypes, List.mem_dedup, hmem]
      rw [changeLookup]
      have hproj : (detectChanges [] S).added =
          (allResourceTypes [] S).filterMap fun u =>
            (let l := addedForType [] S u; if l.isEmpty then none else some (u, l)) := rfl
      rw [hproj, lookup_filterMap_guard
        (show (allResourceTypes [] S).Nodup from List.nodup_dedup _) _ htypes]
      rcases hadded t with h | h
      · rw [h]
        by_cases hemp :
            ((typeList S t).filter (fun r => truthyOpt (resourceId r))).isEmpty
        · simp only [hemp, if_true, Option.getD_none]
          exact (List.isEmpty_iff.mp hemp).symm
        · simp only [Bool.not_eq_true] at hemp
          simp [hemp]
      · exact absurd hmem h
    · have hkeys : ∀ u, u ∈ ((detectChanges [] S).added.map Prod.fst) → u ∈ S.map Prod.fst := by
        intro u hu
        rcases List.mem_map.mp hu with ⟨p, hp, rfl⟩
        rcases List.mem_filterMap.mp hp with ⟨w, hw, hfw⟩
        have hw' : w ∈ allResourceTypes [] S := hw
        simp only at hfw
        split at hfw
        · exact absurd hfw (by simp)
        · rcases Option.some.injEq .. ▸ hfw with rfl
          simpa [allResourceTypes, List.mem_dedup] using hw'
      have : (detectChanges [] S).added.lookup t = none := by
        apply lookup_eq_none_of_not_mem_keys
        intro h
        exact hmem (hkeys t h)
      rw [changeLookup, this]
      have : typeList S t = [] := by
        rw [typeList, lookup_eq_none_of_not_mem_keys hmem]
        rfl
      simp [this]

/-- C2 witness: the bootstrap theorem at a concrete snapshot containing
one record with a `ResourceId` and one without. -/
theorem detectChanges_bootstrap_witness :
    (detectChanges [] [("EC2_Instances",
      [[("ResourceId", Value.str "i-1")], [("Name", Value.str "noid")]])]).removed = [] ∧
    (detectChanges [] [("EC2_Instances",
      [[("ResourceId", Value.str "i-1")], [("Name", Value.str "noid")]])]).modified = [] ∧
    changeLookup (detectChanges [] [("EC2_Instances",
      [[("ResourceId", Value.str "i-1")], [("Name", Value.str "noid")]])]).added
      "EC2_Instances" = [[("ResourceId", Value.str "i-1")]] := by
  have h := detectChanges_bootstrap
    [("EC2_Instances", [[("ResourceId", Value.str "i-1")], [("Name", Value.str "noid")]])]
    (by decide)
  refine ⟨h.1, h.2.1, ?_⟩
  rw [h.2.2 "EC2_Instances"]
  rfl

/-! ## Claim C3: cost attribution (`_calculate_cost_changes`) -/

/-- The hard-coded per-resource-type monthly cost factors of
`_calculate_cost_changes` (`0.5` is the exact rational one half). -/
def costFactors : List (String × Rat) :=
  [("EC2_Instances", 100), ("RDS_Instances", 200), ("S3_Buckets", 5),
   ("Lambda_Functions", 1/2), ("CloudFront_Distributions", 30), ("default", 10)]

/-- `cost_factors['default']`. -/
def defaultFactor : Rat := 10

/-- `cost_factors.get(resource_type, cost_factors['default'])`: unknown
resource types fall back to the default factor, never raising. -/
def getCostFactor (t : String) : Rat :=
  (costFactors.lookup t).getD defaultFactor

/-- `impact_factor = 0.1` — the assumed cost impact of a modification. -/
def impactFactor : Rat := 1/10

/-- One resource type's row of `breakdown_by_type`. -/
structure TypeImpact where
  added : Rat
  removed : Rat
  modified : Rat
  total : Rat
  deriving Repr

/-- `result['breakdown_by_type']` update for one `(resource_type, resources)`
pair: initialise the row to zeros when absent, then store the impact in the
change-kind slot and add it to the row total. -/
def bdSet (bd : List (String × TypeImpact)) (t : String)
    (f : TypeImpact → Rat → TypeImpact) (impact : Rat) : List (String × TypeImpact) :=
  let bd' := if (bd.lookup t).isSome then bd else bd ++ [(t, ⟨0, 0, 0, 0⟩)]
  bd'.map fun p =>
    if p.1 = t then (p.1, { f p.2 impact with total := p.2.total + impact }) else p

/-- The result of `_calculate_cost_changes`. -/
structure CostChanges where
  added_cost : Rat
  removed_cost : Rat
  modified_cost : Rat
  total_impact : Rat
  breakdown_by_type : List (String × TypeImpact)
  deriving Repr

/-- `_calculate_cost_changes(changes)`: sums `count × factor` over added and
removed types, `count × factor × impact_factor` over modified types, and
reports `total_impact = added_cost - removed_cost + modified_cost` plus the
per-type breakdown. -/
def calculateCostChanges (cs : ChangeSet) : CostChanges :=
  let added_cost := cs.added.foldl
    (fun acc p => acc + (p.2.length : Rat) * getCostFactor p.1) 0
  let removed_cost := cs.removed.foldl
    (fun acc p => acc + (p.2.length : Rat) * getCostFactor p.1) 0
  let modified_cost := cs.modified.foldl
    (fun acc p => acc + (p.2.length : Rat) * getCostFactor p.1 * impactFactor) 0
  let bd₁ := cs.added.foldl
    (fun bd p => bdSet bd p.1 (fun ti i => { ti with added := i })
      ((p.2.length : Rat) * getCostFactor p.1)) []
  let bd₂ := cs.removed.foldl
    (fun bd p => bdSet bd p.1 (fun ti i => { ti with removed := i })
      (-((p.2.length : Rat) * getCostFactor p.1))) bd₁
  let bd₃ := cs.modified.foldl
    (fun bd p => bdSet bd p.1 (fun ti i => { ti with modified := i })
      ((p.2.length : Rat) * getCostFactor p.1 * impactFactor)) bd₂
  { added_cost := added_cost
    removed_cost := removed_cost
    modified_cost := modified_cost
    total_impact := added_cost - removed_cost + modified_cost
    breakdown_by_type := bd₃ }

theorem foldl_add_eq_sum {α : Type} (f : α → Rat) (l : List α) (init : Rat) :
    l.foldl (fun acc x => acc + f x) init = init + (l.map f).sum := by
  induction l generalizing init with
  | nil => simp
  | cons x l ih => simp [ih, add_assoc]

/-- C3.  The cost attribution: `added_cost` is the sum over added types of
`count × cost_factor[type]`, `removed_cost` the same over removed types,
`modified_cost` the sum over modified types of
`count × cost_factor[type] × 0.1`; a resource type absent from the factor
table gets the default factor (the function is total — nothing raises);
and `total_impact = added_cost - removed_cost + modified_cost`. -/
theorem calculateCostChanges_spec (cs : ChangeSet) :
    (calculateCostChanges cs).added_cost =
      (cs.added.map fun p => (p.2.length : Rat) * getCostFactor p.1).sum ∧
    (calculateCostChanges cs).removed_cost =
      (cs.removed.map fun p => (p.2.length : Rat) * getCostFactor p.1).sum ∧
    (calculateCostChanges cs).modified_cost =
      (cs.modified.map fun p => (p.2.length : Rat) * getCostFactor p.1 * impactFactor).sum ∧
    (calculateCostChanges cs).total_impact =
      (calculateCostChanges cs).added_cost - (calculateCostChanges cs).removed_cost
        + (calculateCostChanges cs).modified_cost ∧
    ∀ t, costFactors.lookup t = none → getCostFactor t = defaultFactor := by
  refine ⟨?_, ?_, ?_, rfl, ?_⟩
  · simpa using foldl_add_eq_sum (fun p => (p.2.length : Rat) * getCostFactor p.1) cs.added 0
  · simpa using foldl_add_eq_sum (fun p => (p.2.length : Rat) * getCostFactor p.1) cs.removed 0
  · simpa using foldl_add_eq_sum
      (fun p => (p.2.length : Rat) * getCostFactor p.1 * impactFactor) cs.modified 0
  · intro t ht
    rw [getCostFactor, ht]
    rfl

/-- C3 witness: the theorem at the spec's own scenario (one EC2 instance
added, one S3 bucket removed) and at an unknown resource type. -/
theorem calculateCostChanges_spec_witness :
    getCostFactor "Route53_Zones" = defaultFactor ∧
    (calculateCostChanges ⟨[("EC2_Instances", [[("ResourceId", Value.str "i-BBB")]])],
      [("S3_Buckets", [[("ResourceId", Value.str "bkt-1")]])], []⟩).total_impact = 95 := by
  have h := calculateCostChanges_spec
    ⟨[("EC2_Instances", [[("ResourceId", Value.str "i-BBB")]])],
      [("S3_Buckets", [[("ResourceId", Value.str "bkt-1")]])], []⟩
  refine ⟨h.2.2.2.2 "Route53_Zones" (by rfl), ?_⟩
  rw [h.2.2.2.1, h.1, h.2.1, h.2.2.1]
  have e1 : (("S3_Buckets" : String) == "EC2_Instances") = false := by decide
  have e2 : (("S3_Buckets" : String) == "RDS_Instances") = false := by decide
  simp +decide only [getCostFactor, costFactors, impactFactor, List.lookup,
    List.map_cons, List.map_nil, List.sum_cons, List.sum_nil, e1, e2]
  norm_num

/-! ## Claims C5 and C6: field comparison semantics -/

theorem lookup_filterMap_opt {β : Type} {ts : List String} (hnd : ts.Nodup)
    (f : String → Option β) {t : String} (ht : t ∈ ts) :
    (ts.filterMap fun u => (f u).map ((u, ·))).lookup t = f t := by
  induction ts with
  | nil => simp at ht
  | cons u ts ih =>
      rcases List.nodup_cons.mp hnd with ⟨hu, hnd'⟩
      by_cases he : u = t
      · subst he
        rcases hf : f u with _ | c
        · have : (ts.filterMap fun w => (f w).map ((w, ·))).lookup u = none := by
            apply lookup_eq_none_of_not_mem_keys
            intro hmem
            rcases List.mem_map.mp hmem with ⟨p, hp, rfl⟩
            rcases List.mem_filterMap.mp hp with ⟨w, hw, hfw⟩
            rcases Option.map_eq_some'.mp hfw with ⟨c, _, rfl⟩
            exact hu hw
          simp [hf, this]
        · simp [hf, List.lookup]
      · have ht' : t ∈ ts := by
          rcases List.mem_cons.mp ht with h | h
          · exact absurd h.symm he
          · exact h
        have hne : (t == u) = false := beq_eq_false_iff_ne.mpr (Ne.symm he)
        rcases hf : f u with _ | c
        · simpa [hf] using ih hnd' ht'
        · simpa [hf, List.lookup, hne] using ih hnd' ht'

theorem mem_keysUnion_left {a b : Record} {k : String}
    (h : k ∈ a.map Prod.fst) : k ∈ keysUnion a b := by
  simp [keysUnion, List.mem_dedup, h]

theorem keysUnion_nodup (a b : Record) : (keysUnion a b).Nodup :=
  List.nodup_dedup _

/-- C5.  A field whose value changes from the integer `0` to the string
`"0"` marks the record modified, and the recorded field change is
`{from: 0, to: "0"}` — no type coercion makes them equal. -/
theorem int_to_str_change_reported (a b : Record) (k : String) (hk : k ≠ "Tags")
    (ha : lookupVal k a = some (.int 0)) (hb : lookupVal k b = some (.str "0")) :
    isResourceModified a b = true ∧
    (getResourceChanges a b).fields.lookup k =
      some (.changed (.int 0) (.str "0")) := by
  have hne : pyEq (.int 0) (.str "0") = false := by decide
  have hmem : k ∈ keysUnion a b := mem_keysUnion_left (mem_keys_of_lookupVal_eq_some ha)
  constructor
  · rw [isResourceModified, Bool.or_eq_true]
    left
    rw [List.any_eq_true]
    refine ⟨k, hmem, ?_⟩
    rw [fieldDiffers, ha, hb]
    simp [hne, bne_iff_ne, hk]
  · rw [getResourceChanges]
    rw [lookup_filterMap_opt (keysUnion_nodup a b) _ hmem]
    rw [fieldChangeAt, if_neg hk, ha, hb]
    simp [hne]

/-- C5 witness: the theorem at concrete records whose `Status` field flips
from `0` to `"0"`. -/
theorem int_to_str_change_reported_witness :
    isResourceModified
      [("ResourceId", Value.str "r-1"), ("Status", Value.int 0)]
      [("ResourceId", Value.str "r-1"), ("Status", Value.str "0")] = true ∧
    (getResourceChanges
      [("ResourceId", Value.str "r-1"), ("Status", Value.int 0)]
      [("ResourceId", Value.str "r-1"), ("Status", Value.str "0")]).fields.lookup
        "Status" = some (.changed (.int 0) (.str "0")) :=
  int_to_str_change_reported _ _ "Status" (by decide) rfl rfl

theorem tagDiff_self_empty {m : List (Value × Value)} (hnd : PyNodupKeys m) :
    tagDiff m m = ⟨[], [], []⟩ := by
  have hfind : ∀ p : Value × Value, p ∈ m → (findPy p.1 m).isSome :=
    fun p hp => findPy_isSome_of_mem (show (p.1, p.2) ∈ m by simpa using hp)
  rw [tagDiff]
  simp only [TagChanges.mk.injEq]
  refine ⟨?_, ?_, ?_⟩
  · rw [List.filter_eq_nil_iff]
    intro p hp
    simp [Option.isNone_iff_eq_none, Option.isSome_iff_ne_none.mp (hfind p hp)]
  · rw [List.filter_eq_nil_iff]
    intro p hp
    simp [Option.isNone_iff_eq_none, Option.isSome_iff_ne_none.mp (hfind p hp)]
  · rw [List.filterMap_eq_nil_iff]
    intro p hp
    rw [findPy_eq_some_of_mem_nodup hnd (by simpa using hp)]
    simp [pyEq_refl]

/-- C6 (implicit).  A field whose value changes from the integer `0` to the
float `0.0`, or to the boolean `False`, does **not** mark the record
modified (Python's `!=` identifies numerically equal values across the
`bool`/`int`/`float` tower), and — the records being otherwise identical —
the computed change details are entirely empty. -/
theorem numeric_tower_not_modified (a b : Record) (k : String) (hk : k ≠ "Tags")
    (ha : lookupVal k a = some (.int 0))
    (hb : lookupVal k b = some (.float 0) ∨ lookupVal k b = some (.bool false))
    (hrest : ∀ k', k' ≠ k → lookupVal k' a = lookupVal k' b) :
    isResourceModified a b = false ∧
    (getResourceChanges a b).fields = [] ∧
    (getResourceChanges a b).tags = ⟨[], [], []⟩ := by
  have heq : ∀ vb, lookupVal k b = some vb → pyEq (.int 0) vb = true := by
    intro vb hvb
    rcases hb with hb | hb <;> rw [hvb] at hb <;>
      rcases Option.some.injEq .. ▸ hb with rfl <;> decide
  have htags : getTags a = getTags b := by
    rw [getTags, getTags, hrest "Tags" (Ne.symm hk)]
  have hfd : ∀ k' ∈ keysUnion a b, fieldDiffers a b k' = false := by
    intro k' hk'
    by_cases hkk : k' = k
    · subst hkk
      rcases hb with hb | hb <;>
        · rw [fieldDiffers, ha, hb]
          simp [show pyEq (.int 0) _ = true from heq _ hb]
    · have hsame := hrest k' hkk
      have hsome : (lookupVal k' a).isSome := by
        rcases (by simpa [keysUnion, List.mem_dedup] using hk' :
            k' ∈ a.map Prod.fst ∨ k' ∈ b.map Prod.fst) with h | h
        · exact lookupVal_isSome_of_mem_keys h
        · rw [hsame]; exact lookupVal_isSome_of_mem_keys h
      rcases Option.isSome_iff_exists.mp hsome with ⟨v, hv⟩
      rw [fieldDiffers, hv, ← hsame, hv]
      simp [pyEq_refl]
  refine ⟨?_, ?_, ?_⟩
  · rw [isResourceModified]
    have h₁ : ((keysUnion a b).any fun k' => k' != "Tags" && fieldDiffers a b k') = false := by
      rw [List.any_eq_false]
      intro k' hk'
      simp [hfd k' hk']
    rw [h₁, htags, Bool.false_or, tagMapEqb, tagMapSub_self (buildTagMap_nodup _)]
    simp
  · rw [getResourceChanges]
    simp only
    rw [List.filterMap_eq_nil_iff]
    intro k' hk'
    by_cases hkt : k' = "Tags"
    · simp [fieldChangeAt, hkt]
    · by_cases hkk : k' = k
      · subst hkk
        rcases hb with hb | hb <;>
          · rw [fieldChangeAt, if_neg hkt, ha, hb]
            simp [show pyEq (.int 0) _ = true from heq _ hb]
      · have hsame := hrest k' hkk
        rcases hv : lookupVal k' a with _ | v
        · rw [fieldChangeAt, if_neg hkt, hv, ← hsame, hv]
          rfl
        · rw [fieldChangeAt, if_neg hkt, hv, ← hsame, hv]
          simp [pyEq_refl]
  · rw [getResourceChanges]
    simp only
    rw [htags]
    exact tagDiff_self_empty (buildTagMap_nodup _)

/-- C6 witness: the theorem at concrete records whose `Status` field flips
from integer `0` to float `0.0`. -/
theorem numeric_tower_not_modified_witness :
    isResourceModified
      [("ResourceId", Value.str "r-1"), ("Status", Value.int 0)]
      [("ResourceId", Value.str "r-1"), ("Status", Value.float 0)] = false ∧
    (getResourceChanges
      [("ResourceId", Value.str "r-1"), ("Status", Value.int 0)]
      [("ResourceId", Value.str "r-1"), ("Status", Value.float 0)]).fields = [] ∧
    (getResourceChanges
      [("ResourceId", Value.str "r-1"), ("Status", Value.int 0)]
      [("ResourceId", Value.str "r-1"), ("Status", Value.float 0)]).tags =
      ⟨[], [], []⟩ := by
  apply numeric_tower_not_modified
    [("ResourceId", Value.str "r-1"), ("Status", Value.int 0)]
    [("ResourceId", Value.str "r-1"), ("Status", Value.float 0)]
    "Status" (by decide) rfl (Or.inl rfl)
  intro k' hk'
  by_cases h1 : "ResourceId" = k'
  · simp [lookupVal, h1]
  · have h2 : ¬("Status" = k') := fun h => hk' h.symm
    simp [lookupVal, h1, h2]

/-! ## Claim C4: tag-order invariance -/

theorem perm_all_eq {α : Type} (p : α → Bool) {l l' : List α} (h : l.Perm l') :
    l.all p = l'.all p := by
  rw [Bool.eq_iff_iff, List.all_eq_true, List.all_eq_true]
  exact ⟨fun ha x hx => ha x (h.mem_iff.mpr hx), fun ha x hx => ha x (h.mem_iff.mp hx)⟩

theorem any_congr_mem {α : Type} {f g : α → Bool} {l : List α}
    (h : ∀ x ∈ l, f x = g x) : l.any f = l.any g := by
  induction l with
  | nil => rfl
  | cons x l ih =>
      simp only [List.any_cons, h x (by simp)]
      rw [ih fun y hy => h y (by simp [hy])]

theorem findPy_eq_some_exists {β : Type} {m : List (Value × β)} {k : Value} {v : β}
    (h : findPy k m = some v) : ∃ k₀, (k₀, v) ∈ m ∧ pyEq k₀ k = true := by
  induction m with
  | nil => simp [findPy] at h
  | cons p m ih =>
      by_cases hp : pyEq p.1 k = true
      · rw [findPy, if_pos hp] at h
        exact ⟨p.1, by simp [← Option.some.injEq .. ▸ h], hp⟩
      · rw [findPy, if_neg hp] at h
        rcases ih h with ⟨k₀, hk₀, hpy⟩
        exact ⟨k₀, by simp [hk₀], hpy⟩

theorem findPy_eq_some_of_pyEq_mem_nodup {β : Type} {m : List (Value × β)}
    {k k₀ : Value} {v : β} (hnd : PyNodupKeys m) (hm : (k₀, v) ∈ m)
    (hpy : pyEq k₀ k = true) : findPy k m = some v := by
  induction m with
  | nil => simp at hm
  | cons p m ih =>
      simp only [PyNodupKeys, List.map_cons, List.pairwise_cons] at hnd
      by_cases hp : pyEq p.1 k = true
      · rcases List.mem_cons.mp hm with hm | hm
        · rw [findPy, if_pos hp, ← hm]
        · exfalso
          have h₁ : pyEq p.1 k₀ = false :=
            hnd.1 k₀ (List.mem_map.mpr ⟨(k₀, v), hm, rfl⟩)
          have h₂ : pyEq k k₀ = true := pyEq_symm k₀ k ▸ hpy
          rw [pyEq_trans hp h₂] at h₁
          exact Bool.true_eq_false ▸ h₁
      · rcases List.mem_cons.mp hm with hm | hm
        · rw [← hm] at hp
          exact absurd hpy hp
        · rw [findPy, if_neg hp]
          exact ih hnd.2 hm

theorem findPy_perm {β : Type} {m m' : List (Value × β)} (h : m.Perm m')
    (hnd : PyNodupKeys m') (k : Value) : findPy k m = findPy k m' := by
  rcases hf : findPy k m' with _ | v
  · exact findPy_eq_none_of_forall fun p hp =>
      forall_not_pyEq_of_findPy_eq_none hf p (h.mem_iff.mp hp)
  · rcases findPy_eq_some_exists hf with ⟨k₀, hk₀, hpy⟩
    have hnd' : PyNodupKeys m := by
      rw [PyNodupKeys]
      exact ((h.map Prod.fst).pairwise_iff
        (fun hab => by rw [pyEq_symm]; exact hab)).mpr hnd
    exact findPy_eq_some_of_pyEq_mem_nodup hnd' (h.mem_iff.mpr hk₀) hpy

/-- Replace a record's `Tags` entry (if any) by the given tag list, leaving
every other field untouched: the shape of "the same record with its tag
list reordered". -/
def setTags (r : Record) (ts : List Value) : Record :=
  r.map fun p => if p.1 = "Tags" then (p.1, .list ts) else p

/-- The tag entries carry pairwise-distinct keys (under Python `==`) —
the hypothesis under which reordering a tag list cannot change which
occurrence of a key wins. -/
def TagKeysDistinct (ts : List Value) : Prop :=
  ts.Pairwise (fun t u => pyEq (pyGet t "Key") (pyGet u "Key") = false)

/-- Two value-keyed dicts are equal as mappings (same Python-`==` lookup
everywhere). -/
def MapEquiv {β : Type} (m m' : List (Value × β)) : Prop :=
  ∀ k, findPy k m = findPy k m'

/-- The three tag-change maps agree as mappings. -/
def TagChangesEquiv (tc tc' : TagChanges) : Prop :=
  MapEquiv tc.added tc'.added ∧ MapEquiv tc.removed tc'.removed ∧
    MapEquiv tc.modified tc'.modified

theorem setTags_keys (r : Record) (ts : List Value) :
    (setTags r ts).map Prod.fst = r.map Prod.fst := by
  rw [setTags, List.map_map]
  apply List.map_congr_left
  intro p _
  by_cases hp : p.1 = "Tags" <;> simp [hp]

theorem lookupVal_setTags_ne (r : Record) (ts : List Value) {k : String}
    (hk : k ≠ "Tags") : lookupVal k (setTags r ts) = lookupVal k r := by
  induction r with
  | nil => rfl
  | cons p r ih =>
      show lookupVal k ((if p.1 = "Tags" then (p.1, Value.list ts) else p) :: setTags r ts)
        = lookupVal k (p :: r)
      by_cases hp : p.1 = "Tags"
      · have hpk : ¬(p.1 = k) := fun h => hk (h.symm.trans hp)
        rw [if_pos hp, lookupVal, lookupVal, if_neg hpk, if_neg hpk]
        exact ih
      · rw [if_neg hp, lookupVal, lookupVal]
        by_cases hpk : p.1 = k
        · simp [hpk]
        · rw [if_neg hpk, if_neg hpk]
          exact ih

theorem lookupVal_setTags_Tags {r : Record} {v : Value} (ts : List Value)
    (h : lookupVal "Tags" r = some v) :
    lookupVal "Tags" (setTags r ts) = some (.list ts) := by
  induction r with
  | nil => simp [lookupVal] at h
  | cons p r ih =>
      show lookupVal "Tags" ((if p.1 = "Tags" then (p.1, Value.list ts) else p) :: setTags r ts)
        = some (Value.list ts)
      by_cases hp : p.1 = "Tags"
      · rw [if_pos hp, lookupVal, if_pos hp]
      · rw [lookupVal, if_neg hp] at h
        rw [if_neg hp, lookupVal, if_neg hp]
        exact ih h

theorem getTags_setTags {r : Record} {ts' : List Value}
    (hperm : ts'.Perm (getTags r)) : getTags (setTags r ts') = ts' := by
  rcases h : lookupVal "Tags" r with _ | v
  · have hkeys : "Tags" ∉ (setTags r ts').map Prod.fst := by
      rw [setTags_keys]
      intro hmem
      rcases Option.isSome_iff_exists.mp (lookupVal_isSome_of_mem_keys hmem) with ⟨w, hw⟩
      rw [h] at hw
      exact Option.noConfusion hw
    have hnone : lookupVal "Tags" (setTags r ts') = none := by
      rcases hl : lookupVal "Tags" (setTags r ts') with _ | w
      · rfl
      · exact absurd (mem_keys_of_lookupVal_eq_some hl) hkeys
    have hts : getTags r = [] := by rw [getTags, h]
    have : ts' = [] := (hts ▸ hperm).eq_nil
    rw [getTags, hnone, this]
  · rw [getTags, lookupVal_setTags_Tags ts' h]

theorem all_congr_mem {α : Type} {f g : α → Bool} {l : List α}
    (h : ∀ x ∈ l, f x = g x) : l.all f = l.all g := by
  induction l with
  | nil => rfl
  | cons x l ih =>
      simp only [List.all_cons, h x (by simp)]
      rw [ih fun y hy => h y (by simp [hy])]

theorem buildTagMapAux_eq {m : List (Value × Value)} {ts : List Value}
    (hdisj : ∀ p ∈ m, ∀ t ∈ ts, pyEq p.1 (pyGet t "Key") = false)
    (hnd : TagKeysDistinct ts) :
    buildTagMapAux m ts =
      m ++ ts.map fun t => (pyGet t "Key", pyGet t "Value") := by
  induction ts generalizing m with
  | nil => simp [buildTagMapAux]
  | cons t ts ih =>
      rw [TagKeysDistinct, List.pairwise_cons] at hnd
      have hnone : findPy (pyGet t "Key") m = none :=
        findPy_eq_none_of_forall fun p hp => hdisj p hp t (by simp)
      have hstep : buildTagMapAux m (t :: ts) =
          buildTagMapAux (m ++ [(pyGet t "Key", pyGet t "Value")]) ts := by
        rw [buildTagMapAux, insertPy_eq_append_of_findPy_eq_none _ hnone]
      rw [hstep, ih ?_ hnd.2]
      · simp
      · intro p hp u hu
        rcases List.mem_append.mp hp with hp | hp
        · exact hdisj p hp u (by simp [hu])
        · rcases List.mem_singleton.mp hp
          exact hnd.1 u hu

theorem buildTagMap_eq_of_distinct {ts : List Value} (hnd : TagKeysDistinct ts) :
    buildTagMap ts = ts.map fun t => (pyGet t "Key", pyGet t "Value") := by
  simpa using buildTagMapAux_eq (m := []) (by simp) hnd

theorem buildTagMap_perm {ts ts' : List Value} (hperm : ts'.Perm ts)
    (hnd : TagKeysDistinct ts) : (buildTagMap ts').Perm (buildTagMap ts) := by
  have hnd' : TagKeysDistinct ts' :=
    (hperm.pairwise_iff fun hab => by rw [TagKeysDistinct] at *; rw [pyEq_symm]; exact hab).mpr hnd
  rw [buildTagMap_eq_of_distinct hnd, buildTagMap_eq_of_distinct hnd']
  exact hperm.map _

theorem pyNodup_filter {β : Type} {m : List (Value × β)} (p : Value × β → Bool)
    (hnd : PyNodupKeys m) : PyNodupKeys (m.filter p) := by
  rw [PyNodupKeys] at *
  exact List.Pairwise.sublist
    (List.Sublist.map Prod.fst (show (m.filter p).Sublist m from List.filter_sublist m)) hnd

theorem pyNodup_filterMap_keeping {β γ : Type} {m : List (Value × β)}
    {f : Value × β → Option (Value × γ)}
    (hf : ∀ p q, f p = some q → q.1 = p.1) (hnd : PyNodupKeys m) :
    PyNodupKeys (m.filterMap f) := by
  induction m with
  | nil => simp [PyNodupKeys]
  | cons p m ih =>
      rw [PyNodupKeys, List.map_cons, List.pairwise_cons] at hnd
      rcases hfp : f p with _ | q
      · simpa [List.filterMap_cons, hfp] using ih hnd.2
      · rw [PyNodupKeys, List.filterMap_cons, hfp, List.map_cons, List.pairwise_cons]
        refine ⟨?_, ih hnd.2⟩
        intro b hb
        rcases List.mem_map.mp hb with ⟨x, hx, rfl⟩
        rcases List.mem_filterMap.mp hx with ⟨y, hy, hfy⟩
        rw [hf p q hfp, hf y x hfy]
        exact hnd.1 y.1 (List.mem_map.mpr ⟨y, hy, rfl⟩)

theorem tagDiff_right_equiv {sm em em' : List (Value × Value)}
    (hpm : em'.Perm em) (hndem : PyNodupKeys em) :
    (tagDiff sm em').removed = (tagDiff sm em).removed ∧
    (tagDiff sm em').modified = (tagDiff sm em).modified ∧
    MapEquiv (tagDiff sm em').added (tagDiff sm em).added := by
  have hfe : ∀ k, findPy k em' = findPy k em := findPy_perm hpm hndem
  refine ⟨?_, ?_, ?_⟩
  · rw [tagDiff, tagDiff]
    exact List.filter_congr fun p _ => by rw [hfe p.1]
  · rw [tagDiff, tagDiff]
    simp only
    exact List.filterMap_congr fun p _ => by rw [hfe p.1]
  · intro k
    exact findPy_perm (hpm.filter _) (pyNodup_filter _ hndem) k

theorem tagDiff_left_equiv {sm em em' : List (Value × Value)}
    (hpm : em'.Perm em) (hndem : PyNodupKeys em) :
    (tagDiff em' sm).added = (tagDiff em sm).added ∧
    MapEquiv (tagDiff em' sm).removed (tagDiff em sm).removed ∧
    MapEquiv (tagDiff em' sm).modified (tagDiff em sm).modified := by
  have hfe : ∀ k, findPy k em' = findPy k em := findPy_perm hpm hndem
  refine ⟨?_, ?_, ?_⟩
  · rw [tagDiff, tagDiff]
    exact List.filter_congr fun p _ => by rw [hfe p.1]
  · intro k
    exact findPy_perm (hpm.filter _) (pyNodup_filter _ hndem) k
  · intro k
    refine findPy_perm (hpm.filterMap _) (pyNodup_filterMap_keeping ?_ hndem) k
    intro p q hq
    simp only at hq
    split at hq
    · split at hq
      · exact absurd hq (by simp)
      · rcases Option.some.injEq .. ▸ hq with rfl
        rfl
    · exact absurd hq (by simp)

theorem tagMapEqb_right_perm {sm em em' : List (Value × Value)}
    (hpm : em'.Perm em) (hndem : PyNodupKeys em) :
    tagMapEqb sm em' = tagMapEqb sm em := by
  have hfe : ∀ k, findPy k em' = findPy k em := findPy_perm hpm hndem
  rw [tagMapEqb, tagMapEqb]
  have h₁ : tagMapSub sm em' = tagMapSub sm em := by
    rw [tagMapSub, tagMapSub]
    exact all_congr_mem fun p _ => by rw [hfe p.1]
  have h₂ : tagMapSub em' sm = tagMapSub em sm := by
    rw [tagMapSub, tagMapSub]
    exact perm_all_eq _ hpm
  rw [h₁, h₂]

theorem tagMapEqb_left_perm {sm em em' : List (Value × Value)}
    (hpm : em'.Perm em) (hndem : PyNodupKeys em) :
    tagMapEqb em' sm = tagMapEqb em sm := by
  have hfe : ∀ k, findPy k em' = findPy k em := findPy_perm hpm hndem
  rw [tagMapEqb, tagMapEqb]
  have h₁ : tagMapSub em' sm = tagMapSub em sm := by
    rw [tagMapSub, tagMapSub]
    exact perm_all_eq _ hpm
  have h₂ : tagMapSub sm em' = tagMapSub sm em := by
    rw [tagMapSub, tagMapSub]
    exact all_congr_mem fun p _ => by rw [hfe p.1]
  rw [h₁, h₂]

/-- C4 (amended).  Reordering a record's tag list **whose entries carry
pairwise-distinct keys** changes nothing the diff engine computes from the
record: whether it counts as modified against any other record (in either
direction), the field-change mapping, and the tag-change maps (as
mappings), as well as its `ResourceId` and hence its added/removed/modified
classification, are all unchanged. -/
theorem tag_order_invariance_amended (a b : Record) (ts' : List Value)
    (hperm : ts'.Perm (getTags a)) (hnd : TagKeysDistinct (getTags a)) :
    resourceId (setTags a ts') = resourceId a ∧
    isResourceModified b (setTags a ts') = isResourceModified b a ∧
    isResourceModified (setTags a ts') b = isResourceModified a b ∧
    (getResourceChanges b (setTags a ts')).fields = (getResourceChanges b a).fields ∧
    (getResourceChanges (setTags a ts') b).fields = (getResourceChanges a b).fields ∧
    TagChangesEquiv (getResourceChanges b (setTags a ts')).tags
      (getResourceChanges b a).tags ∧
    TagChangesEquiv (getResourceChanges (setTags a ts') b).tags
      (getResourceChanges a b).tags := by
  have hts : getTags (setTags a ts') = ts' := getTags_setTags hperm
  have hpm : (buildTagMap ts').Perm (buildTagMap (getTags a)) := buildTagMap_perm hperm hnd
  have hndem : PyNodupKeys (buildTagMap (getTags a)) := buildTagMap_nodup _
  have hfd : ∀ (c : Record) k, k ≠ "Tags" →
      fieldDiffers c (setTags a ts') k = fieldDiffers c a k := by
    intro c k hk
    rw [fieldDiffers, fieldDiffers, lookupVal_setTags_ne a ts' hk]
  have hfd' : ∀ (c : Record) k, k ≠ "Tags" →
      fieldDiffers (setTags a ts') c k = fieldDiffers a c k := by
    intro c k hk
    rw [fieldDiffers, fieldDiffers, lookupVal_setTags_ne a ts' hk]
  have hfc : ∀ (c : Record) k, fieldChangeAt c (setTags a ts') k = fieldChangeAt c a k := by
    intro c k
    by_cases hk : k = "Tags"
    · rw [fieldChangeAt, if_pos hk, fieldChangeAt, if_pos hk]
    · rw [fieldChangeAt, if_neg hk, fieldChangeAt, if_neg hk,
        lookupVal_setTags_ne a ts' hk]
  have hfc' : ∀ (c : Record) k, fieldChangeAt (setTags a ts') c k = fieldChangeAt a c k := by
    intro c k
    by_cases hk : k = "Tags"
    · rw [fieldChangeAt, if_pos hk, fieldChangeAt, if_pos hk]
    · rw [fieldChangeAt, if_neg hk, fieldChangeAt, if_neg hk,
        lookupVal_setTags_ne a ts' hk]
  have hku : ∀ c : Record, keysUnion c (setTags a ts') = keysUnion c a := by
    intro c
    rw [keysUnion, keysUnion, setTags_keys]
  have hku' : keysUnion (setTags a ts') b = keysUnion a b := by
    rw [keysUnion, keysUnion, setTags_keys]
  refine ⟨?_, ?_, ?_, ?_, ?_, ?_, ?_⟩
  · rw [resourceId, resourceId, lookupVal_setTags_ne a ts' (by decide)]
  · rw [isResourceModified, isResourceModified, hku b, hts,
      tagMapEqb_right_perm hpm hndem]
    congr 1
    apply any_congr_mem
    intro k _
    by_cases hk : k = "Tags"
    · simp [hk]
    · rw [hfd b k hk]
  · rw [isResourceModified, isResourceModified, hku', hts,
      tagMapEqb_left_perm hpm hndem]
    congr 1
    apply any_congr_mem
    intro k _
    by_cases hk : k = "Tags"
    · simp [hk]
    · rw [hfd' b k hk]
  · show ((keysUnion b (setTags a ts')).filterMap fun k =>
        (fieldChangeAt b (setTags a ts') k).map ((k, ·))) = _
    rw [hku b]
    exact List.filterMap_congr fun k _ => by rw [hfc b k]
  · show ((keysUnion (setTags a ts') b).filterMap fun k =>
        (fieldChangeAt (setTags a ts') b k).map ((k, ·))) = _
    rw [hku']
    exact List.filterMap_congr fun k _ => by rw [hfc' b k]
  · show TagChangesEquiv
      (tagDiff (buildTagMap (getTags b)) (buildTagMap (getTags (setTags a ts')))) _
    rw [hts]
    rcases @tagDiff_right_equiv (buildTagMap (getTags b)) _ _ hpm hndem with
      ⟨hrem, hmod, hadd⟩
    exact ⟨hadd, fun k => by rw [hrem]; rfl, fun k => by rw [hmod]; rfl⟩
  · show TagChangesEquiv
      (tagDiff (buildTagMap (getTags (setTags a ts'))) (buildTagMap (getTags b))) _
    rw [hts]
    rcases @tagDiff_left_equiv (buildTagMap (getTags b)) _ _ hpm hndem with
      ⟨hadd, hrem, hmod⟩
    exact ⟨fun k => by rw [hadd]; rfl, hrem, hmod⟩

/-- C4 counterexample: with a **duplicate** tag key, permuting the tag list
changes which occurrence wins and therefore changes the diff output — the
record is flagged modified for one order of the after-side tag list and
unmodified for the other, refuting the unrestricted claim. -/
theorem tag_order_invariance_counterexample :
    (detectChanges
      [("EC2", [[("ResourceId", Value.str "r"),
        ("Tags", Value.list [Value.dict [("Key", Value.str "K"), ("Value", Value.str "a")]])]])]
      [("EC2", [[("ResourceId", Value.str "r"),
        ("Tags", Value.list [Value.dict [("Key", Value.str "K"), ("Value", Value.str "a")],
          Value.dict [("Key", Value.str "K"), ("Value", Value.str "b")]])]])]).modified.length
      = 1 ∧
    (detectChanges
      [("EC2", [[("ResourceId", Value.str "r"),
        ("Tags", Value.list [Value.dict [("Key", Value.str "K"), ("Value", Value.str "a")]])]])]
      [("EC2", [[("ResourceId", Value.str "r"),
        ("Tags", Value.list [Value.dict [("Key", Value.str "K"), ("Value", Value.str "b")],
          Value.dict [("Key", Value.str "K"), ("Value", Value.str "a")]])]])]).modified
      = [] :=
  ⟨rfl, rfl⟩

/-- C4 witness: the amended theorem at the spec's own scenario record
(`i-AAA`, tags `Env=Prod, Team=X`) with the two tags swapped. -/
theorem tag_order_invariance_amended_witness :
    isResourceModified
      (setTags [("ResourceId", Value.str "i-AAA"),
        ("Tags", Value.list [Value.dict [("Key", Value.str "Env"), ("Value", Value.str "Prod")],
          Value.dict [("Key", Value.str "Team"), ("Value", Value.str "X")]])]
        [Value.dict [("Key", Value.str "Team"), ("Value", Value.str "X")],
          Value.dict [("Key", Value.str "Env"), ("Value", Value.str "Prod")]])
      [("ResourceId", Value.str "i-AAA"),
        ("Tags", Value.list [Value.dict [("Key", Value.str "Env"), ("Value", Value.str "Prod")]])] =
    isResourceModified
      [("ResourceId", Value.str "i-AAA"),
        ("Tags", Value.list [Value.dict [("Key", Value.str "Env"), ("Value", Value.str "Prod")],
          Value.dict [("Key", Value.str "Team"), ("Value", Value.str "X")]])]
      [("ResourceId", Value.str "i-AAA"),
        ("Tags", Value.list [Value.dict [("Key", Value.str "Env"), ("Value", Value.str "Prod")]])] := by
  have h := tag_order_invariance_amended
    [("ResourceId", Value.str "i-AAA"),
      ("Tags", Value.list [Value.dict [("Key", Value.str "Env"), ("Value", Value.str "Prod")],
        Value.dict [("Key", Value.str "Team"), ("Value", Value.str "X")]])]
    [("ResourceId", Value.str "i-AAA"),
      ("Tags", Value.list [Value.dict [("Key", Value.str "Env"), ("Value", Value.str "Prod")]])]
    [Value.dict [("Key", Value.str "Team"), ("Value", Value.str "X")],
      Value.dict [("Key", Value.str "Env"), ("Value", Value.str "Prod")]]
    (List.Perm.swap _ _ [])
    (by unfold TagKeysDistinct; decide)
  exact h.2.2.1

/-! ## Claim C7: trend generation (`_generate_monthly_cost_trend`,
`_generate_resource_count_trend`) -/

/-- The payload of one `all_resources.json` file: its `metadata` object and
its `resources` mapping. -/
structure AllData where
  metadata : Record
  resources : List (String × List Record)
  deriving Repr

/-- One entry of the simulated monthly-cost trend series. -/
structure CostTrendEntry where
  date : String
  costs : List (String × Int)
  total_cost : Int
  deriving Repr, DecidableEq

/-- The full output of `_generate_monthly_cost_trend`: the series plus an
`updated_at` wall-clock timestamp (`datetime.now().isoformat()`, passed in
explicitly here as `now`). -/
structure MonthlyCostTrend where
  monthly_cost_trend : List CostTrendEntry
  updated_at : String
  deriving Repr, DecidableEq

/-- `_generate_monthly_cost_trend(date_dirs)`: hard-coded simulated costs
per date, plus the `updated_at` timestamp. -/
def generateMonthlyCostTrend (dateDirs : List String) (now : String) : MonthlyCostTrend where
  monthly_cost_trend := dateDirs.map fun d =>
    { date := d
      costs := [("EC2", 100), ("S3", 50), ("RDS", 75), ("Other", 30)]
      total_cost := 100 + 50 + 75 + 30 }
  updated_at := now

/-- One entry of the resource-count trend series (`total_resources` is
whatever the stored metadata claims, default `0`). -/
structure CountTrendEntry where
  date : String
  resource_counts : List (String × Nat)
  total_resources : Value
  deriving Repr

/-- The full output of `_generate_resource_count_trend`. -/
structure ResourceCountTrend where
  resource_count_trend : List CountTrendEntry
  updated_at : String
  deriving Repr

/-- `_generate_resource_count_trend(date_dirs)`: per date, load that date's
`all_resources.json` from the store (a date with no such file is skipped
with a warning), count each type's records, and stamp `updated_at`. -/
def generateResourceCountTrend (dateDirs : List String)
    (store : List (String × AllData)) (now : String) : ResourceCountTrend where
  resource_count_trend := dateDirs.filterMap fun d =>
    match store.lookup d with
    | none => none
    | some ad => some
        { date := d
          resource_counts := ad.resources.map fun p => (p.1, p.2.length)
          total_resources := (lookupVal "total_resources" ad.metadata).getD (.int 0) }
  updated_at := now

/-- C7 counterexample: two rebuilds of the monthly-cost trend from the very
same snapshot history but at different wall-clock instants differ — the
output embeds `updated_at = datetime.now()`, so it is not byte-identical
and not a pure function of the snapshot history alone. -/
theorem trend_determinism_counterexample :
    generateMonthlyCostTrend ["2025-02-01"] "2025-02-01T10:00:00" ≠
      generateMonthlyCostTrend ["2025-02-01"] "2025-02-01T11:00:00" := by
  decide

/-- C7 (amended).  The trend **series** themselves are pure functions of the
stored snapshot history: rebuilding twice from the same date list and store
yields identical `monthly_cost_trend` / `resource_count_trend` components;
only the `updated_at` timestamp differs between runs (it equals the
wall-clock instant of the run). -/
theorem trend_series_pure (dateDirs : List String) (store : List (String × AllData))
    (now now' : String) :
    (generateMonthlyCostTrend dateDirs now).monthly_cost_trend =
      (generateMonthlyCostTrend dateDirs now').monthly_cost_trend ∧
    (generateMonthlyCostTrend dateDirs now).updated_at = now ∧
    (generateResourceCountTrend dateDirs store now).resource_count_trend =
      (generateResourceCountTrend dateDirs store now').resource_count_trend ∧
    (generateResourceCountTrend dateDirs store now).updated_at = now :=
  ⟨rfl, rfl, rfl, rfl⟩

/-! ## Claim C9: date listing (`_is_valid_date_format`,
`get_latest_raw_data_date`, `get_previous_raw_data_date`)

`_is_valid_date_format` delegates to `datetime.strptime(date_str,
'%Y-%m-%d')`.  CPython compiles that format to the regex
`(?P<Y>\d\d\d\d)-(?P<m>1[0-2]|0[1-9]|[1-9])-(?P<d>3[01]|[12]\d|0[1-9]|[1-9])`,
matched from the start with leftmost-alternative preference (the only
backtracking point that matters is the literal `-` after the month, and at
most one month alternative can be followed by `-`), then raises if input
remains, then validates the calendar date via the `datetime` constructor.
In particular the parse is **lenient**: `'2025-1-1'` is accepted.
`\d` is modelled as the ASCII digits (the non-ASCII decimal digits Python's
`\d` would also match cannot appear in the store's own date names, which
this code itself writes with `strftime`). -/

/-- Numeric value of a decimal digit character. -/
def digitVal (c : Char) : Nat := c.toNat - 48

/-- `%Y`: exactly four decimal digits. -/
def parseYear : List Char → Option (Nat × List Char)
  | a :: b :: c :: d :: rest =>
      if a.isDigit ∧ b.isDigit ∧ c.isDigit ∧ d.isDigit then
        some (digitVal a * 1000 + digitVal b * 100 + digitVal c * 10 + digitVal d, rest)
      else none
  | _ => none

/-- `%m`'s alternatives `1[0-2] | 0[1-9] | [1-9]` in preference order, each
with the unconsumed input. -/
def monthCandidates : List Char → List (Nat × List Char)
  | c₁ :: c₂ :: rest =>
      (if c₁ = '1' ∧ (c₂ = '0' ∨ c₂ = '1' ∨ c₂ = '2')
        then [(10 + digitVal c₂, rest)] else []) ++
      (if c₁ = '0' ∧ ('1' ≤ c₂ ∧ c₂ ≤ '9')
        then [(digitVal c₂, rest)] else []) ++
      (if '1' ≤ c₁ ∧ c₁ ≤ '9'
        then [(digitVal c₁, c₂ :: rest)] else [])
  | [c₁] => if '1' ≤ c₁ ∧ c₁ ≤ '9' then [(digitVal c₁, [])] else []
  | [] => []

/-- `%d`'s alternatives `3[01] | [12]\d | 0[1-9] | [1-9]` in preference
order. -/
def dayCandidates : List Char → List (Nat × List Char)
  | c₁ :: c₂ :: rest =>
      (if c₁ = '3' ∧ (c₂ = '0' ∨ c₂ = '1')
        then [(30 + digitVal c₂, rest)] else []) ++
      (if (c₁ = '1' ∨ c₁ = '2') ∧ c₂.isDigit
        then [(digitVal c₁ * 10 + digitVal c₂, rest)] else []) ++
      (if c₁ = '0' ∧ ('1' ≤ c₂ ∧ c₂ ≤ '9')
        then [(digitVal c₂, rest)] else []) ++
      (if '1' ≤ c₁ ∧ c₁ ≤ '9'
        then [(digitVal c₁, c₂ :: rest)] else [])
  | [c₁] => if '1' ≤ c₁ ∧ c₁ ≤ '9' then [(digitVal c₁, [])] else []
  | [] => []

/-- The `strptime('%Y-%m-%d')` regex match plus the no-leftover check: the
month alternative is the unique one followed by `-`; the day alternative is
the leftmost match (the pattern ends there, so no backtracking); any
remaining input raises (`unconverted data`). -/
def parseYmd (s : String) : Option (Nat × Nat × Nat) :=
  match parseYear s.toList with
  | none => none
  | some (y, r₁) =>
      match r₁ with
      | '-' :: r₂ =>
          match (monthCandidates r₂).filter (fun mc => mc.2.head? = some '-') with
          | [] => none
          | (m, r₃) :: _ =>
              match dayCandidates (r₃.tail) with
              | [] => none
              | (d, r₅) :: _ => if r₅ = [] then some (y, m, d) else none
      | _ => none

/-- Gregorian leap year, as in `datetime`. -/
def isLeapYear (y : Nat) : Bool :=
  y % 4 = 0 && (y % 100 ≠ 0 || y % 400 = 0)

/-- Days in a month, as validated by the `datetime` constructor. -/
def daysInMonth (y m : Nat) : Nat :=
  if m = 2 then (if isLeapYear y then 29 else 28)
  else if m = 4 ∨ m = 6 ∨ m = 9 ∨ m = 11 then 30
  else 31

/-- `_is_valid_date_format(date_str)`: `strptime` parse succeeds and the
parsed triple is a real calendar date (`datetime` constructor bounds). -/
def isValidDateFormat (s : String) : Bool :=
  match parseYmd s with
  | some (y, m, d) =>
      1 ≤ y && y ≤ 9999 && 1 ≤ m && m ≤ 12 && 1 ≤ d && d ≤ daysInMonth y m
  | none => false

/-- Strict lexicographic order on code-point sequences — Python's `<` on
`str` compares code points lexicographically. -/
def natsLt : List Nat → List Nat → Bool
  | [], [] => false
  | [], _ :: _ => true
  | _ :: _, [] => false
  | a :: as, b :: bs => if a < b then true else if b < a then false else natsLt as bs

/-- Python's `s < t` on strings. -/
def pyStrLt (s t : String) : Bool :=
  natsLt (s.data.map Char.toNat) (t.data.map Char.toNat)

/-- Python's `s <= t` on strings (total order: `not (t < s)`). -/
def pyStrLe (s t : String) : Bool :=
  !(pyStrLt t s)

theorem natsLt_irrefl (a : List Nat) : natsLt a a = false := by
  induction a with
  | nil => rfl
  | cons x a ih => simp [natsLt, ih]

theorem natsLt_asymm : ∀ {a b : List Nat}, natsLt a b = true → natsLt b a = false
  | [], [], h => by simp [natsLt] at h
  | [], _ :: _, _ => rfl
  | _ :: _, [], h => by simp [natsLt] at h
  | x :: a, y :: b, h => by
      rw [natsLt] at h ⊢
      by_cases hxy : x < y
      · rw [if_neg (Nat.lt_asymm hxy), if_pos hxy]
      · by_cases hyx : y < x
        · rw [if_neg hxy, if_pos hyx] at h
          exact absurd h (by simp)
        · rw [if_neg hxy, if_neg hyx] at h
          rw [if_neg hyx, if_neg hxy]
          exact natsLt_asymm h

theorem natsLt_eq_of_not : ∀ {a b : List Nat},
    natsLt a b = false → natsLt b a = false → a = b
  | [], [], _, _ => rfl
  | [], _ :: _, h₁, _ => by simp [natsLt] at h₁
  | _ :: _, [], _, h₂ => by simp [natsLt] at h₂
  | x :: a, y :: b, h₁, h₂ => by
      by_cases hxy : x < y
      · rw [natsLt, if_pos hxy] at h₁
        exact absurd h₁ (by simp)
      · by_cases hyx : y < x
        · rw [natsLt, if_pos hyx] at h₂
          exact absurd h₂ (by simp)
        · have hxyeq : x = y := Nat.le_antisymm (Nat.le_of_not_lt hyx) (Nat.le_of_not_lt hxy)
          rw [natsLt, if_neg hxy, if_neg hyx] at h₁
          rw [natsLt, if_neg hyx, if_neg hxy] at h₂
          rw [hxyeq, natsLt_eq_of_not h₁ h₂]

theorem natsLt_trans : ∀ {a b c : List Nat},
    natsLt a b = true → natsLt b c = true → natsLt a c = true
  | [], _, _ :: _, _, _ => rfl
  | [], _ :: _, [], _, h₂ => by simp [natsLt] at h₂
  | [], [], [], h₁, _ => by simp [natsLt] at h₁
  | _ :: _, [], _, h₁, _ => by simp [natsLt] at h₁
  | _ :: _, _ :: _, [], _, h₂ => by simp [natsLt] at h₂
  | x :: a, y :: b, z :: c, h₁, h₂ => by
      rw [natsLt] at h₁ h₂ ⊢
      by_cases hxy : x < y
      · by_cases hyz : y < z
        · rw [if_pos (Nat.lt_trans hxy hyz)]
        · by_cases hzy : z < y
          · rw [if_neg hyz, if_pos hzy] at h₂
            exact absurd h₂ (by simp)
          · have hyzeq : y = z := Nat.le_antisymm (Nat.le_of_not_lt hzy) (Nat.le_of_not_lt hyz)
            rw [if_pos (hyzeq ▸ hxy)]
      · by_cases hyx : y < x
        · rw [if_neg hxy, if_pos hyx] at h₁
          exact absurd h₁ (by simp)
        · have hxyeq : x = y := Nat.le_antisymm (Nat.le_of_not_lt hyx) (Nat.le_of_not_lt hxy)
          rw [if_neg hxy, if_neg hyx] at h₁
          by_cases hyz : y < z
          · have hxz : x < z := by rw [hxyeq]; exact hyz
            rw [if_pos hxz]
          · by_cases hzy : z < y
            · rw [if_neg hyz, if_pos hzy] at h₂
              exact absurd h₂ (by simp)
            · have hxz : ¬ x < z := by rw [hxyeq]; exact hyz
              have hzx : ¬ z < x := by rw [hxyeq]; exact hzy
              rw [if_neg hyz, if_neg hzy] at h₂
              rw [if_neg hxz, if_neg hzx]
              exact natsLt_trans h₁ h₂

theorem pyStrLe_refl (s : String) : pyStrLe s s = true := by
  rw [pyStrLe, pyStrLt, natsLt_irrefl]
  rfl

theorem pyStrLe_total (s t : String) : pyStrLe s t = true ∨ pyStrLe t s = true := by
  rw [pyStrLe, pyStrLe]
  rcases h : pyStrLt t s with _ | _
  · left
    rfl
  · right
    rw [pyStrLt] at h ⊢
    rw [natsLt_asymm h]
    rfl

theorem pyStrLe_trans {s t u : String} (h₁ : pyStrLe s t = true)
    (h₂ : pyStrLe t u = true) : pyStrLe s u = true := by
  rw [pyStrLe, Bool.not_eq_true'] at h₁ h₂ ⊢
  rw [pyStrLt] at h₁ h₂ ⊢
  rcases hus : natsLt (u.data.map Char.toNat) (s.data.map Char.toNat) with _ | _
  · rfl
  · exfalso
    rcases htu : natsLt (t.data.map Char.toNat) (u.data.map Char.toNat) with _ | _
    · have heq := natsLt_eq_of_not htu h₂
      rw [heq, hus] at h₁
      exact Bool.noConfusion h₁
    · rw [natsLt_trans htu hus] at h₁
      exact Bool.noConfusion h₁

/-- Insertion-sort step under Python's string order (structural
counterpart of Python's `sorted`, whose result it matches on the
duplicate-free lists produced by directory listings). -/
def insertStr (x : String) : List String → List String
  | [] => [x]
  | y :: l => if pyStrLe x y then x :: y :: l else y :: insertStr x l

/-- `sorted(...)` on strings under Python's lexicographic order. -/
def sortStrings : List String → List String
  | [] => []
  | x :: l => insertStr x (sortStrings l)

/-- `get_latest_raw_data_date()`: keep the directory names that parse as
dates, return the last of the sorted list (`sorted(date_dirs)[-1]`) or
`None` when there are none. -/
def getLatestRawDataDate (names : List String) : Option String :=
  let ds := names.filter isValidDateFormat
  if ds.isEmpty then none else (sortStrings ds).getLast?

/-- `get_previous_raw_data_date(current_date)`: same, restricted to names
strictly below `current_date` as strings. -/
def getPreviousRawDataDate (names : List String) (current : String) : Option String :=
  let ds := names.filter fun d => isValidDateFormat d && pyStrLt d current
  if ds.isEmpty then none else (sortStrings ds).getLast?

theorem insertStr_perm (x : String) (l : List String) :
    (insertStr x l).Perm (x :: l) := by
  induction l with
  | nil => exact List.Perm.refl _
  | cons y l ih =>
      rw [insertStr]
      by_cases h : pyStrLe x y = true
      · rw [if_pos h]
      · rw [if_neg h]
        exact (ih.cons y).trans (List.Perm.swap x y l)

theorem sortStrings_perm (l : List String) : (sortStrings l).Perm l := by
  induction l with
  | nil => exact List.Perm.refl _
  | cons x l ih => exact (insertStr_perm x (sortStrings l)).trans (ih.cons x)

theorem insertStr_pairwise {x : String} {l : List String}
    (h : l.Pairwise (fun a b => pyStrLe a b = true)) :
    (insertStr x l).Pairwise (fun a b => pyStrLe a b = true) := by
  induction l with
  | nil => exact List.pairwise_singleton ..
  | cons y l ih =>
      rw [List.pairwise_cons] at h
      rw [insertStr]
      by_cases hxy : pyStrLe x y = true
      · rw [if_pos hxy, List.pairwise_cons]
        refine ⟨?_, List.pairwise_cons.mpr h⟩
        intro z hz
        rcases List.mem_cons.mp hz with rfl | hz
        · exact hxy
        · exact pyStrLe_trans hxy (h.1 z hz)
      · rw [if_neg hxy, List.pairwise_cons]
        refine ⟨?_, ih h.2⟩
        intro z hz
        rcases List.mem_cons.mp ((insertStr_perm x l).mem_iff.mp hz) with hzx | hz
        · rw [hzx]
          rcases pyStrLe_total x y with htot | htot
          · exact absurd htot hxy
          · exact htot
        · exact h.1 z hz

theorem sortStrings_pairwise (l : List String) :
    (sortStrings l).Pairwise (fun a b => pyStrLe a b = true) := by
  induction l with
  | nil => exact List.Pairwise.nil
  | cons x l ih => exact insertStr_pairwise ih

theorem mem_of_getLast?_eq_some {α : Type} {l : List α} {m : α}
    (h : l.getLast? = some m) : m ∈ l := by
  induction l with
  | nil => simp at h
  | cons x l ih =>
      rcases l with _ | ⟨y, l'⟩
      · simp_all
      · rw [List.getLast?_cons_cons] at h
        exact List.mem_cons.mpr (Or.inr (ih h))

theorem le_getLast?_of_pairwise {l : List String} {m : String}
    (hp : l.Pairwise (fun a b => pyStrLe a b = true)) (h : l.getLast? = some m) :
    ∀ x ∈ l, pyStrLe x m = true := by
  induction l with
  | nil => simp
  | cons y l ih =>
      rw [List.pairwise_cons] at hp
      intro x hx
      rcases l with _ | ⟨z, l'⟩
      · have hym : y = m := by simpa using h
        have hxy : x = y := by simpa using hx
        rw [hxy, hym]
        exact pyStrLe_refl m
      · rw [List.getLast?_cons_cons] at h
        rcases List.mem_cons.mp hx with rfl | hx
        · exact hp.1 m (mem_of_getLast?_eq_some h)
        · exact ih hp.2 h x hx

/-- The shared shape of both date queries: last element of the sorted
filtered list; it is the maximum (under Python's string order) of the
names passing the filter. -/
theorem sortedLast_filter_spec (l : List String) (q : String → Bool) :
    ((if (l.filter q).isEmpty then none
      else (sortStrings (l.filter q)).getLast?) = none ↔ l.filter q = []) ∧
    ∀ m, (if (l.filter q).isEmpty then none
      else (sortStrings (l.filter q)).getLast?) = some m →
        m ∈ l ∧ q m = true ∧ ∀ d ∈ l, q d = true → pyStrLe d m = true := by
  by_cases he : (l.filter q).isEmpty
  · rw [if_pos he]
    exact ⟨by simp [List.isEmpty_iff.mp he], by simp⟩
  · rw [if_neg he]
    have hne : l.filter q ≠ [] := fun h => he (by simp [h])
    have hsne : sortStrings (l.filter q) ≠ [] := by
      intro h
      have hpm := sortStrings_perm (l.filter q)
      rw [h] at hpm
      exact hne (List.length_eq_zero.mp hpm.length_eq.symm)
    constructor
    · rw [List.getLast?_eq_none_iff]
      exact ⟨fun h => absurd h hsne, fun h => absurd h hne⟩
    · intro m hm
      have hmem : m ∈ l.filter q :=
        (sortStrings_perm (l.filter q)).mem_iff.mp (mem_of_getLast?_eq_some hm)
      rcases List.mem_filter.mp hmem with ⟨hml, hmq⟩
      refine ⟨hml, hmq, ?_⟩
      intro d hd hq
      exact le_getLast?_of_pairwise (sortStrings_pairwise _) hm d
        ((sortStrings_perm (l.filter q)).mem_iff.mpr (List.mem_filter.mpr ⟨hd, hq⟩))

/-- C9 (amended).  Listing considers exactly the names accepted by the
lenient `strptime('%Y-%m-%d')` parse (4-digit year, 1- or 2-digit month and
day, real calendar date) — malformed names are silently dropped, nothing
raises (the functions are total); `get_latest_raw_data_date` returns the
lexicographically greatest valid name (`None` when there is none), and
`get_previous_raw_data_date(current)` the greatest valid name strictly
below `current` (`None` when there is none). -/
theorem date_listing_spec (names : List String) :
    (getLatestRawDataDate names = none ↔ names.filter isValidDateFormat = []) ∧
    (∀ m, getLatestRawDataDate names = some m →
      m ∈ names ∧ isValidDateFormat m = true ∧
      ∀ d ∈ names, isValidDateFormat d = true → pyStrLe d m = true) ∧
    (∀ c, getPreviousRawDataDate names c = none ↔
      names.filter (fun d => isValidDateFormat d && pyStrLt d c) = []) ∧
    (∀ c m, getPreviousRawDataDate names c = some m →
      m ∈ names ∧ isValidDateFormat m = true ∧ pyStrLt m c = true ∧
      ∀ d ∈ names, isValidDateFormat d = true → pyStrLt d c = true →
        pyStrLe d m = true) := by
  refine ⟨?_, ?_, ?_, ?_⟩
  · exact (sortedLast_filter_spec names isValidDateFormat).1
  · exact fun m hm => (sortedLast_filter_spec names isValidDateFormat).2 m hm
  · intro c
    exact (sortedLast_filter_spec names (fun d => isValidDateFormat d && pyStrLt d c)).1
  · intro c m hm
    rcases (sortedLast_filter_spec names
      (fun d => isValidDateFormat d && pyStrLt d c)).2 m hm with ⟨hml, hq, hmax⟩
    rcases Bool.and_eq_true .. ▸ hq with ⟨hv, hlt⟩
    refine ⟨hml, hv, hlt, ?_⟩
    intro d hd hdv hdc
    exact hmax d hd (by simp [hdv, hdc])

/-- C9 counterexample: `'2025-1-1'` is **not** zero-padded, yet
`_is_valid_date_format` accepts it (Python's `strptime` is lenient), so the
listing does consider it — refuting the "strict zero-padded `YYYY-MM-DD`"
claim. -/
theorem date_format_counterexample :
    isValidDateFormat "2025-1-1" = true ∧
    getLatestRawDataDate ["2025-1-1"] = some "2025-1-1" := by
  decide

/-- C9 witness: the listing theorem applied to a concrete mix of valid,
lenient-valid and malformed names (`2025-02-30` fails calendar
validation, `notes` fails the parse). -/
theorem date_listing_spec_witness :
    getLatestRawDataDate ["2025-03-15", "notes", "2025-02-30", "2025-9-1"] =
      some "2025-9-1" ∧
    pyStrLe "2025-03-15" "2025-9-1" = true := by
  have h := date_listing_spec ["2025-03-15", "notes", "2025-02-30", "2025-9-1"]
  refine ⟨by decide, ?_⟩
  exact (h.2.1 "2025-9-1" (by decide)).2.2 "2025-03-15" (by decide) (by decide)

/-! ## Claim C8: missing snapshots are errors, never empty snapshots -/

/-- One date directory of the raw store: its `all_resources.json` payload,
when that file exists. -/
structure DateDir where
  allResources : Option AllData

/-- The raw snapshot store: date-named directories (`output/raw/<date>`). -/
abbrev RawStore := List (String × DateDir)

/-- The errors the load phases raise.  The Python code raises `ValueError`
("データが存在しません") for a missing date directory — the spec's
`SnapshotNotFoundError` — `ValueError` ("処理対象のデータがありません")
when no data exists at all, and `FileNotFoundError` for a missing
`all_resources.json`. -/
inductive ProcError where
  | snapshotNotFound : String → ProcError
  | noData : ProcError
  | fileNotFound : String → ProcError
  deriving Repr

/-- The load phase of `generate_summary(date_str)` (lines 108–127):
resolve the target date (explicit, or the latest valid date), fail with
`SnapshotNotFoundError` if an explicitly named date has no directory, and
load that date's `all_resources.json`. -/
def generateSummaryLoad (raw : RawStore) (dateArg : Option String) :
    Except ProcError (String × AllData) :=
  match dateArg with
  | some d =>
      match raw.lookup d with
      | none => .error (.snapshotNotFound d)
      | some dir =>
          match dir.allResources with
          | none => .error (.fileNotFound d)
          | some ad => .ok (d, ad)
  | none =>
      match getLatestRawDataDate (raw.map Prod.fst) with
      | none => .error .noData
      | some d =>
          match raw.lookup d with
          | none => .error (.fileNotFound d)
          | some dir =>
              match dir.allResources with
              | none => .error (.fileNotFound d)
              | some ad => .ok (d, ad)

/-- The load phase of `generate_change_report(start_date, end_date)`
(lines 226–243): both date directories must exist (checked in order,
`SnapshotNotFoundError` otherwise), then both `all_resources.json` files
are read. -/
def generateChangeReportLoad (raw : RawStore) (startDate endDate : String) :
    Except ProcError (AllData × AllData) :=
  match raw.lookup startDate with
  | none => .error (.snapshotNotFound startDate)
  | some sdir =>
      match raw.lookup endDate with
      | none => .error (.snapshotNotFound endDate)
      | some edir =>
          match sdir.allResources with
          | none => .error (.fileNotFound startDate)
          | some sd =>
              match edir.allResources with
              | none => .error (.fileNotFound endDate)
              | some ed => .ok (sd, ed)

/-- C8.  A date with no stored snapshot makes summarising fail with
`SnapshotNotFoundError` for that date, makes diffing-from-that-date fail
with `SnapshotNotFoundError` for that date, and makes diffing-to-that-date
fail with some error; no branch ever substitutes an empty snapshot. -/
theorem missing_snapshot_errors (raw : RawStore) (d : String)
    (h : raw.lookup d = none) :
    generateSummaryLoad raw (some d) = .error (.snapshotNotFound d) ∧
    (∀ e, generateChangeReportLoad raw d e = .error (.snapshotNotFound d)) ∧
    (∀ s, ∃ err, generateChangeReportLoad raw s d = .error err) := by
  refine ⟨?_, ?_, ?_⟩
  · rw [generateSummaryLoad, h]
  · intro e
    rw [generateChangeReportLoad, h]
  · intro s
    rcases hs : raw.lookup s with _ | dir
    · exact ⟨.snapshotNotFound s, by rw [generateChangeReportLoad, hs]⟩
    · refine ⟨.snapshotNotFound d, ?_⟩
      rw [generateChangeReportLoad, hs, h]

/-- C8 witness: the theorem at the empty store and a concrete date. -/
theorem missing_snapshot_errors_witness :
    generateSummaryLoad [] (some "2025-01-01") =
      .error (.snapshotNotFound "2025-01-01") ∧
    generateChangeReportLoad [] "2025-01-01" "2025-02-01" =
      .error (.snapshotNotFound "2025-01-01") ∧
    ∃ err, generateChangeReportLoad [] "2025-02-01" "2025-01-01" = .error err := by
  have h := missing_snapshot_errors [] "2025-01-01" rfl
  exact ⟨h.1, h.2.1 "2025-02-01", h.2.2 "2025-02-01"⟩

/-! ## Claim C10: `save_raw_data` and atomicity -/

/-- A file written into a date directory by `save_raw_data`: one per-type
JSON file (the serialised record list) or the combined
`all_resources.json` (timestamp, per-type counts, total, full mapping). -/
inductive SavedFile where
  | typeFile : List Record → SavedFile
  | allFile : String → List (String × Nat) → Nat → List (String × List Record) → SavedFile

/-- The observable state of the date directory: absent, or a list of the
files written so far. -/
abbrev DirState := Option (List (String × SavedFile))

/-- The per-type files `save_raw_data` writes, in iteration order
(`f"{resource_type.lower()}.json"`). -/
def typeFiles (resources : List (String × List Record)) : List (String × SavedFile) :=
  resources.map fun p => (p.1.toLower ++ ".json", SavedFile.typeFile p.2)

/-- The combined `all_resources.json` payload: `datetime.now()` timestamp
(passed as `now`), per-type `resource_counts`, `total_resources`, and the
full resources mapping. -/
def allResourcesFile (resources : List (String × List Record)) (now : String) :
    String × SavedFile :=
  ("all_resources.json",
    .allFile now (resources.map fun p => (p.1, p.2.length))
      ((resources.map fun p => p.2.length).sum) resources)

/-- All files a completed `save_raw_data` leaves in the date directory, in
write order. -/
def saveWrites (resources : List (String × List Record)) (now : String) :
    List (String × SavedFile) :=
  typeFiles resources ++ [allResourcesFile resources now]

/-- The sequence of directory states `save_raw_data` passes through for its
date: the prior state; after `shutil.rmtree` (only when a prior snapshot
directory exists) the directory is gone; after `os.makedirs` it is empty;
then one state per file written (`os.makedirs` after an `rmtree` is the
`i = 0` prefix state). -/
def saveStates (resources : List (String × List Record)) (now : String)
    (prior : DirState) : List DirState :=
  [prior] ++ (if prior.isSome then [(none : DirState)] else []) ++
    (List.range ((saveWrites resources now).length + 1)).map
      (fun i => some ((saveWrites resources now).take i))

/-- C10 (amended).  `save_raw_data` is a full replace but **not** atomic:
on completion the date directory holds exactly the new files (final state),
but whenever a prior snapshot existed the save passes through an observable
state with *no* snapshot at all (right after `shutil.rmtree`), and through
partial states, so a failure partway loses the prior snapshot without
establishing the new one. -/
theorem save_raw_data_states (resources : List (String × List Record))
    (now : String) (prior : DirState) (d₀ : List (String × SavedFile))
    (h : prior = some d₀) :
    (saveStates resources now prior).getLast? =
      some (some (saveWrites resources now)) ∧
    (none : DirState) ∈ saveStates resources now prior := by
  constructor
  · have hmap : ((List.range ((saveWrites resources now).length + 1)).map
        (fun i => some ((saveWrites resources now).take i)) : List DirState).getLast?
        = some (some (saveWrites resources now)) := by
      rw [List.range_succ, List.map_append, List.map_singleton,
        List.getLast?_concat, List.take_length]
    rw [saveStates, List.append_assoc, List.getLast?_append, List.getLast?_append, hmap]
    rfl
  · rw [saveStates, h]
    simp

/-- C10 counterexample: with a prior snapshot present and one resource type
to write, the save passes through a state that is neither the prior
snapshot nor the completed new snapshot (the directory is simply gone),
refuting the atomicity claim at this concrete input. -/
theorem save_not_atomic_counterexample :
    ¬ (∀ st ∈ saveStates [("EC2", [[("ResourceId", Value.str "i-1")]])] "t"
        (some [("old.json", SavedFile.typeFile [])]),
      st = some [("old.json", SavedFile.typeFile [])] ∨
      st = some (saveWrites [("EC2", [[("ResourceId", Value.str "i-1")]])] "t")) := by
  intro h
  have hmem : (none : DirState) ∈ saveStates
      [("EC2", [[("ResourceId", Value.str "i-1")]])] "t"
      (some [("old.json", SavedFile.typeFile [])]) := by
    rw [saveStates]
    simp
  rcases h none hmem with h' | h' <;> exact Option.noConfusion h'

/-- C10 witness: the amended theorem at the counterexample's concrete
input. -/
theorem save_raw_data_states_witness :
    (saveStates [("EC2", [[("ResourceId", Value.str "i-1")]])] "t"
        (some [("old.json", SavedFile.typeFile [])])).getLast? =
      some (some (saveWrites [("EC2", [[("ResourceId", Value.str "i-1")]])] "t")) ∧
    (none : DirState) ∈ saveStates [("EC2", [[("ResourceId", Value.str "i-1")]])] "t"
      (some [("old.json", SavedFile.typeFile [])]) :=
  save_raw_data_states _ _ _ [("old.json", SavedFile.typeFile [])] rfl

end AwsCostReport
